import Mathlib

/-!
# Verification of the Advanced Tic-Tac-Toe engine (src/Game.jsx)

A shallow embedding of the game logic of the React component
`AdvancedTicTacToe`: the board representation, the win/draw detection
(`checkWinner`, `isDraw`), the click handler (`handleCellClick`) as a pure
state transition, and the three AI move selectors (`getRandomMove`,
`getMediumMove`, `getBestMove`) with the `minimax` search.

JavaScript arrays of `null | "X" | "O"` are modelled as `List (Option Player)`.
`arr[i]` used as a truthiness test is modelled by `jsGet` (out-of-range reads
give `undefined` in JS; both `null` and `undefined` are falsy, so `none`
models both there).  A strict `arr[i] === null` test is modelled by
`jsIsNull`, which is false out of range (`undefined !== null`).  An
out-of-range write `arr[i] = v` extends the array, which `jsSet` models by
padding with `none`.

The JS `minimax` recursion terminates because every recursive call fills an
empty cell; the embedding makes that explicit with a `fuel` argument.  Any
`fuel` at least the number of empty cells produces the source behaviour.

`Math.random()`-driven choices are modelled by a `rand : Nat` parameter:
the source picks `empty[Math.floor(Math.random() * empty.length)]`, the
model picks `empty[rand % empty.length]`, which ranges over the same set of
possible results.
-/

namespace TTT

inductive Player where
  | X : Player
  | O : Player
deriving DecidableEq, Repr

open Player

/-- The other player (source: `currentPlayer === "X" ? "O" : "X"`). -/
def other : Player → Player
  | X => O
  | O => X

/-- A board is a JS array of cells: `null` (`none`) or a mark. -/
abbrev Board := List (Option Player)

/-- JS array read `arr[i]` as used in truthiness tests: the cell, or
`undefined` (equally falsy, so also `none`) out of range. -/
def jsGet (b : Board) (i : Nat) : Option Player :=
  b.getD i none

/-- JS strict test `arr[i] === null`: true only in range on an empty cell
(out of range the read gives `undefined`, and `undefined !== null`). -/
def jsIsNull (b : Board) (i : Nat) : Bool :=
  b.get? i == some none

/-- JS array write `arr[i] = v`: in range it updates, past the end it pads
with holes (modelled as `none`) and appends. -/
def jsSet (b : Board) (i : Nat) (v : Option Player) : Board :=
  if i < b.length then b.set i v
  else b ++ List.replicate (i - b.length) none ++ [v]

/-- Source `checkLine(start, step)` inside `checkWinner`: all `size` cells of
the line starting at `start` with stride `step` hold `player`'s mark. -/
def checkLine (arr : Board) (p : Player) (size start step : Nat) : Bool :=
  (List.range size).all fun i => jsGet arr (start + i * step) == some p

/-- Source `checkWinner(arr, size, player)`: rows, then columns, then the two
diagonals; each line is guarded by the truthiness of its first cell. -/
def checkWinner (arr : Board) (size : Nat) (p : Player) : Bool :=
  ((List.range size).any fun r =>
      (jsGet arr (r * size)).isSome && checkLine arr p size (r * size) 1) ||
  ((List.range size).any fun c =>
      (jsGet arr c).isSome && checkLine arr p size c size) ||
  ((jsGet arr 0).isSome && checkLine arr p size 0 (size + 1)) ||
  ((jsGet arr (size - 1)).isSome && checkLine arr p size (size - 1) (size - 1))

/-- Source `arr.every(cell => cell)`: every cell is truthy (occupied). -/
def isFull (arr : Board) : Bool :=
  arr.all fun c => c.isSome

/-- Source `isDraw(arr)`: full board and no winner (the component passes its
`boardSize` state for `size`). -/
def isDraw (arr : Board) (size : Nat) : Bool :=
  isFull arr && !checkWinner arr size X && !checkWinner arr size O

/-- Number of empty cells of a board (used to budget the search fuel). -/
def emptyCount (b : Board) : Nat :=
  b.count none

/-- The React state touched by the game logic: the board, whose turn it is,
and whether the game is still active.  Scores, status messages, sounds and
confetti are presentation-only and omitted. -/
structure GameSt where
  board : Board
  currentPlayer : Player
  gameActive : Bool
deriving DecidableEq, Repr

/-- Source `handleCellClick(idx)` as a pure state transition.  A click on an
occupied cell or a finished game is silently ignored (the early `return`). -/
def handleCellClick (size : Nat) (s : GameSt) (idx : Nat) : GameSt :=
  if !s.gameActive || (jsGet s.board idx).isSome then s
  else
    let nextBoard := jsSet s.board idx (some s.currentPlayer)
    if checkWinner nextBoard size s.currentPlayer then
      { s with board := nextBoard, gameActive := false }
    else if isDraw nextBoard size then
      { s with board := nextBoard, gameActive := false }
    else
      { s with board := nextBoard, currentPlayer := other s.currentPlayer }

/-- Source `getRandomMove()`: the in-order list of empty indices (the source
builds it by `map` + `filter` over the board), then a random one of them;
`null` when there is none. -/
def getRandomMove (b : Board) (rand : Nat) : Option Nat :=
  let empty := (List.range b.length).filter fun i => jsIsNull b i
  if empty.length = 0 then none
  else empty.get? (rand % empty.length)

/-- Source `getMediumMove()`: first scan for an immediate `O` win, then for a
block of an immediate `X` win, then the center cell, else random. -/
def getMediumMove (size : Nat) (b : Board) (rand : Nat) : Option Nat :=
  match (List.range b.length).find? fun i =>
      jsIsNull b i && checkWinner (jsSet b i (some O)) size O with
  | some i => some i
  | none =>
    match (List.range b.length).find? fun i =>
        jsIsNull b i && checkWinner (jsSet b i (some X)) size X with
    | some i => some i
    | none =>
      if jsIsNull b (size * size / 2) then some (size * size / 2)
      else getRandomMove b rand

/-- JS `Math.max(best, v)` folding from `best = -Infinity`:
`none` plays the role of `-Infinity`. -/
def jmax : Option Int → Int → Option Int
  | none, v => some v
  | some b, v => some (max b v)

/-- JS `Math.min(best, v)` folding from `best = Infinity`. -/
def jmin : Option Int → Int → Option Int
  | none, v => some v
  | some b, v => some (min b v)

/-- Source `minimax(arr, depth, isMaximizing)` (the component passes its
`boardSize` state for `size`).  Terminal scores: `10 - depth` when `O` has a
line, `depth - 10` when `X` has one, `0` on a full board; otherwise the
maximum (for `O`) or minimum (for `X`) over filling each empty cell. -/
def minimax (size : Nat) : Nat → Board → Nat → Bool → Int
  | fuel, arr, depth, isMax =>
    if checkWinner arr size O then 10 - (depth : Int)
    else if checkWinner arr size X then (depth : Int) - 10
    else if isFull arr then 0
    else
      match fuel with
      | 0 => 0
      | fuel + 1 =>
        if isMax then
          ((List.range arr.length).foldl (fun best i =>
            if jsIsNull arr i then
              jmax best (minimax size fuel (jsSet arr i (some O)) (depth + 1) false)
            else best) none).getD 0
        else
          ((List.range arr.length).foldl (fun best i =>
            if jsIsNull arr i then
              jmin best (minimax size fuel (jsSet arr i (some X)) (depth + 1) true)
            else best) none).getD 0

/-- Source `getBestMove()`: scan the cells in order, simulate an `O` in each
empty one on a copy of the board, and keep the first index whose `minimax`
score strictly beats the running best (`bestScore` starts at `-Infinity`,
modelled by the `none` accumulator). -/
def getBestMove (fuel size : Nat) (b : Board) : Option Nat :=
  ((List.range b.length).foldl (fun acc i =>
    if jsIsNull b i then
      match acc, minimax size fuel (jsSet b i (some O)) 0 false with
      | none, score => some (i, score)
      | some (m, best), score =>
        if best < score then some (i, score) else some (m, best)
    else acc) none).map Prod.fst

/-- The AI difficulty levels of the selector. -/
inductive Difficulty where
  | easy : Difficulty
  | medium : Difficulty
  | hard : Difficulty
deriving DecidableEq, Repr

/-- Source `makeAIMove()` restricted to its choice of selector: the move the
AI plays for a given difficulty (the unknown-difficulty fallback of the
source is unreachable over this enumeration). -/
def selectMove (fuel size : Nat) (b : Board) (diff : Difficulty) (rand : Nat) :
    Option Nat :=
  match diff with
  | Difficulty.easy => getRandomMove b rand
  | Difficulty.medium => getMediumMove size b rand
  | Difficulty.hard => getBestMove fuel size b

/-- Source `minimax` with its in-place mutation made explicit: the JS code
writes `arr[i] = mark`, recurses on the same array, then writes
`arr[i] = null` back.  This version threads the array state through and
returns it together with the score, so the restore discipline is a provable
statement about it. -/
def minimaxSt (size : Nat) : Nat → Board → Nat → Bool → Int × Board
  | fuel, arr, depth, isMax =>
    if checkWinner arr size O then (10 - (depth : Int), arr)
    else if checkWinner arr size X then ((depth : Int) - 10, arr)
    else if isFull arr then (0, arr)
    else
      match fuel with
      | 0 => (0, arr)
      | fuel + 1 =>
        if isMax then
          let r := (List.range arr.length).foldl (fun acc i =>
            if jsIsNull acc.2 i then
              let rec1 := minimaxSt size fuel (jsSet acc.2 i (some O)) (depth + 1) false
              (jmax acc.1 rec1.1, jsSet rec1.2 i none)
            else acc) (none, arr)
          (r.1.getD 0, r.2)
        else
          let r := (List.range arr.length).foldl (fun acc i =>
            if jsIsNull acc.2 i then
              let rec1 := minimaxSt size fuel (jsSet acc.2 i (some X)) (depth + 1) true
              (jmin acc.1 rec1.1, jsSet rec1.2 i none)
            else acc) (none, arr)
          (r.1.getD 0, r.2)

/-- Modelled from the spec: the source only instantiates the minimax
selector for the `O` side (`getBestMove` always simulates `"O"` and
maximizes).  The spec's self-play property speaks of "two minimax instances
playing against each other", which needs the mirror instance that plays `X`:
for each empty cell simulate placing `X` on a copy, evaluate the same
`minimax` with the opponent `O` to move (maximizing), and keep the first
index whose score strictly improves on the running best from `X`'s point of
view, i.e. is strictly lower (`bestScore` starts at `+Infinity`). -/
def getBestMoveX (fuel size : Nat) (b : Board) : Option Nat :=
  ((List.range b.length).foldl (fun acc i =>
    if jsIsNull b i then
      match acc, minimax size fuel (jsSet b i (some X)) 0 true with
      | none, score => some (i, score)
      | some (m, best), score =>
        if score < best then some (i, score) else some (m, best)
    else acc) none).map Prod.fst

/-- The initial 3×3 game state: empty board, `X` to move, game active. -/
def initSt : GameSt :=
  ⟨List.replicate 9 none, X, true⟩

/-- One interaction round on the 3×3 board against the hard AI: a human click
at `i`, then — as the component's effect hook does when the game is active
and it is `O`'s turn in AI mode — the AI's `getBestMove` is played through
`handleCellClick`. -/
def hardStep (s : GameSt) (i : Nat) : GameSt :=
  let s1 := handleCellClick 3 s i
  if s1.gameActive && s1.currentPlayer == O then
    match getBestMove 9 3 s1.board with
    | some j => handleCellClick 3 s1 j
    | none => s1
  else s1

/-- A whole interaction history against the hard AI. -/
def hardRun (s : GameSt) : List Nat → GameSt
  | [] => s
  | i :: rest => hardRun (hardStep s i) rest

/-- One move of minimax-vs-minimax self play on the 3×3 board: the side to
move picks its move with its minimax instance and plays it through
`handleCellClick`. -/
def selfStep (s : GameSt) : GameSt :=
  if s.gameActive then
    match (if s.currentPlayer == X then getBestMoveX 9 3 s.board
           else getBestMove 9 3 s.board) with
    | some i => handleCellClick 3 s i
    | none => s
  else s

/-- `n` moves of minimax-vs-minimax self play. -/
def selfRun : Nat → GameSt
  | 0 => initSt
  | n + 1 => selfStep (selfRun n)

/-- Game states reachable from the fresh `size`×`size` board through the
click handler alone, with clicks restricted to the board's cells. -/
inductive Reach (size : Nat) : GameSt → Prop where
  | init : Reach size ⟨List.replicate (size * size) none, X, true⟩
  | step : ∀ {s : GameSt} {i : Nat}, Reach size s → i < size * size →
      Reach size (handleCellClick size s i)

/-- Rounding an integer one step towards zero; the effect of one extra ply of
start depth on a `minimax` score. -/
def shrink (x : Int) : Int :=
  if 0 < x then x - 1 else if x < 0 then x + 1 else 0

/-- `X`'s mask and `O`'s mask of a 3×3 board, bit `i` = cell `i`.  Used by
the fast search certificates below. -/
def cellOf (xm om : Nat) (i : Nat) : Option Player :=
  if xm.testBit i then some X else if om.testBit i then some O else none

/-- A mask pair faithfully describes a 3×3 board. -/
def Rep (xm om : Nat) (b : Board) : Prop :=
  b.length = 9 ∧ xm < 512 ∧ om < 512 ∧ xm &&& om = 0 ∧
    ∀ i, i < 9 → b.get? i = some (cellOf xm om i)

instance (xm om : Nat) (b : Board) : Decidable (Rep xm om b) := by
  unfold Rep
  infer_instance

/-- The eight winning lines of the 3×3 board on a mask. -/
def winM (m : Nat) : Bool :=
  (m.testBit 0 && (m.testBit 1 && (m.testBit 2 && true))) ||
  (m.testBit 3 && (m.testBit 4 && (m.testBit 5 && true))) ||
  (m.testBit 6 && (m.testBit 7 && (m.testBit 8 && true))) ||
  (m.testBit 0 && (m.testBit 3 && (m.testBit 6 && true))) ||
  (m.testBit 1 && (m.testBit 4 && (m.testBit 7 && true))) ||
  (m.testBit 2 && (m.testBit 5 && (m.testBit 8 && true))) ||
  (m.testBit 0 && (m.testBit 4 && (m.testBit 8 && true))) ||
  (m.testBit 2 && (m.testBit 4 && (m.testBit 6 && true)))

/-- Move order used by the search certificates (centre and corners first;
only the exploration order, not the result, depends on it). -/
def certOrder : List Nat :=
  [4, 0, 2, 6, 8, 1, 3, 5, 7]

/-- Certificate checker for a lower bound: `canGE v fuel xm om d isMax`
verifies that the minimax value of the position `(xm, om)` searched from
depth `d` with `isMax` to move is at least `v`.  At a maximizing node one
witnessing move suffices; at a minimizing node every move is checked. -/
def canGE (v : Int) : Nat → Nat → Nat → Nat → Bool → Bool
  | 0, xm, om, d, _ =>
    if winM om then decide (v ≤ 10 - (d : Int))
    else if winM xm then decide (v ≤ (d : Int) - 10)
    else if xm ||| om == 511 then decide (v ≤ 0)
    else false
  | fuel + 1, xm, om, d, isMax =>
    if winM om then decide (v ≤ 10 - (d : Int))
    else if winM xm then decide (v ≤ (d : Int) - 10)
    else if xm ||| om == 511 then decide (v ≤ 0)
    else if isMax then
      certOrder.any fun i =>
        !(xm ||| om).testBit i && canGE v fuel xm (om ||| (1 <<< i)) (d + 1) false
    else
      certOrder.all fun i =>
        (xm ||| om).testBit i || canGE v fuel (xm ||| (1 <<< i)) om (d + 1) true

/-- Certificate checker for an upper bound, mirroring `canGE`. -/
def canLE (v : Int) : Nat → Nat → Nat → Nat → Bool → Bool
  | 0, xm, om, d, _ =>
    if winM om then decide (10 - (d : Int) ≤ v)
    else if winM xm then decide ((d : Int) - 10 ≤ v)
    else if xm ||| om == 511 then decide ((0 : Int) ≤ v)
    else false
  | fuel + 1, xm, om, d, isMax =>
    if winM om then decide (10 - (d : Int) ≤ v)
    else if winM xm then decide ((d : Int) - 10 ≤ v)
    else if xm ||| om == 511 then decide ((0 : Int) ≤ v)
    else if isMax then
      certOrder.all fun i =>
        (xm ||| om).testBit i || canLE v fuel xm (om ||| (1 <<< i)) (d + 1) false
    else
      certOrder.any fun i =>
        !(xm ||| om).testBit i && canLE v fuel (xm ||| (1 <<< i)) om (d + 1) true


/-- The safety invariant maintained along any legal game against the hard AI
on the 3×3 board: the board keeps its 9 cells, `X` never has a winning line,
and while the game is running it is `X`'s turn, nobody has a line yet, the
board is not full, and the minimax value of the position evaluated from its
true ply depth is nonnegative (`O` is not losing). -/
def HardInv (s : GameSt) : Prop :=
  s.board.length = 9 ∧
  checkWinner s.board 3 Player.X = false ∧
  (s.gameActive = true →
    s.currentPlayer = Player.X ∧
    checkWinner s.board 3 Player.O = false ∧
    isFull s.board = false ∧
    0 ≤ minimax 3 9 s.board (9 - emptyCount s.board) false) ∧
  (s.gameActive = false →
    checkWinner s.board 3 Player.O = true ∨ isDraw s.board 3 = true)

end TTT

namespace TTT

open Player

/-! ## Generic lemmas about the running-maximum / running-minimum folds -/

theorem jmax_grow {g : Nat → Bool} {f : Nat → Int} :
    ∀ (l : List Nat) (a : Int),
      ∃ w, l.foldl (fun best i => if g i then jmax best (f i) else best) (some a) =
        some w ∧ a ≤ w := by
  intro l
  induction l with
  | nil => exact fun a => ⟨a, rfl, le_refl a⟩
  | cons h t ih =>
    intro a
    by_cases hg : g h = true
    · obtain ⟨w, hw, haw⟩ := ih (max a (f h))
      exact ⟨w, by simpa [hg, jmax] using hw, le_trans (le_max_left a (f h)) haw⟩
    · obtain ⟨w, hw, haw⟩ := ih a
      exact ⟨w, by simpa [hg] using hw, haw⟩

theorem jmax_mem_ge {g : Nat → Bool} {f : Nat → Int} :
    ∀ (l : List Nat) (j : Nat) (acc : Option Int), j ∈ l → g j = true →
      ∃ w, l.foldl (fun best i => if g i then jmax best (f i) else best) acc =
        some w ∧ f j ≤ w := by
  intro l
  induction l with
  | nil => intro j acc hj; cases hj
  | cons h t ih =>
    intro j acc hj hg
    rcases List.mem_cons.mp hj with hjh | hjt
    · subst hjh
      cases acc with
      | none =>
        obtain ⟨w, hw, haw⟩ := jmax_grow t (f j)
        exact ⟨w, by simpa [hg, jmax] using hw, haw⟩
      | some a =>
        obtain ⟨w, hw, haw⟩ := jmax_grow t (max a (f j))
        exact ⟨w, by simpa [hg, jmax] using hw,
          le_trans (le_max_right a (f j)) haw⟩
    · by_cases hgh : g h = true
      · obtain ⟨w, hw, haw⟩ := ih j (jmax acc (f h)) hjt hg
        exact ⟨w, by simpa [hgh] using hw, haw⟩
      · obtain ⟨w, hw, haw⟩ := ih j acc hjt hg
        exact ⟨w, by simpa [hgh] using hw, haw⟩

theorem jmax_le {g : Nat → Bool} {f : Nat → Int} :
    ∀ (l : List Nat) (acc : Option Int) (v : Int),
      (∀ a, acc = some a → a ≤ v) → (∀ i ∈ l, g i = true → f i ≤ v) →
      ∀ w, l.foldl (fun best i => if g i then jmax best (f i) else best) acc =
        some w → w ≤ v := by
  intro l
  induction l with
  | nil => intro acc v hacc _ w hw; exact hacc w hw
  | cons h t ih =>
    intro acc v hacc hall w hw
    by_cases hg : g h = true
    · refine ih (jmax acc (f h)) v ?_ (fun i hi => hall i (List.mem_cons_of_mem h hi))
        w (by simpa [hg] using hw)
      intro a ha
      cases acc with
      | none =>
        simp [jmax] at ha
        exact ha ▸ hall h (List.mem_cons_self h t) hg
      | some b =>
        simp [jmax] at ha
        exact ha ▸ max_le (hacc b rfl) (hall h (List.mem_cons_self h t) hg)
    · exact ih acc v hacc (fun i hi => hall i (List.mem_cons_of_mem h hi)) w
        (by simpa [hg] using hw)

theorem jmax_attain {g : Nat → Bool} {f : Nat → Int} :
    ∀ (l : List Nat) (acc : Option Int) (w : Int),
      l.foldl (fun best i => if g i then jmax best (f i) else best) acc = some w →
      acc = some w ∨ ∃ j ∈ l, g j = true ∧ f j = w := by
  intro l
  induction l with
  | nil => intro acc w hw; exact Or.inl hw
  | cons h t ih =>
    intro acc w hw
    by_cases hg : g h = true
    · rcases ih (jmax acc (f h)) w (by simpa [hg] using hw) with hacc | ⟨j, hj, hgj, hfj⟩
      · cases acc with
        | none =>
          simp [jmax] at hacc
          exact Or.inr ⟨h, List.mem_cons_self h t, hg, hacc⟩
        | some a =>
          simp [jmax] at hacc
          rcases max_choice a (f h) with hm | hm
          · exact Or.inl (by rw [← hacc, hm])
          · exact Or.inr ⟨h, List.mem_cons_self h t, hg, by rw [← hacc, hm]⟩
      · exact Or.inr ⟨j, List.mem_cons_of_mem h hj, hgj, hfj⟩
    · rcases ih acc w (by simpa [hg] using hw) with hacc | ⟨j, hj, hgj, hfj⟩
      · exact Or.inl hacc
      · exact Or.inr ⟨j, List.mem_cons_of_mem h hj, hgj, hfj⟩

theorem jmin_shrink {g : Nat → Bool} {f : Nat → Int} :
    ∀ (l : List Nat) (a : Int),
      ∃ w, l.foldl (fun best i => if g i then jmin best (f i) else best) (some a) =
        some w ∧ w ≤ a := by
  intro l
  induction l with
  | nil => exact fun a => ⟨a, rfl, le_refl a⟩
  | cons h t ih =>
    intro a
    by_cases hg : g h = true
    · obtain ⟨w, hw, haw⟩ := ih (min a (f h))
      exact ⟨w, by simpa [hg, jmin] using hw, le_trans haw (min_le_left a (f h))⟩
    · obtain ⟨w, hw, haw⟩ := ih a
      exact ⟨w, by simpa [hg] using hw, haw⟩

theorem jmin_mem_le {g : Nat → Bool} {f : Nat → Int} :
    ∀ (l : List Nat) (j : Nat) (acc : Option Int), j ∈ l → g j = true →
      ∃ w, l.foldl (fun best i => if g i then jmin best (f i) else best) acc =
        some w ∧ w ≤ f j := by
  intro l
  induction l with
  | nil => intro j acc hj; cases hj
  | cons h t ih =>
    intro j acc hj hg
    rcases List.mem_cons.mp hj with hjh | hjt
    · subst hjh
      cases acc with
      | none =>
        obtain ⟨w, hw, haw⟩ := jmin_shrink t (f j)
        exact ⟨w, by simpa [hg, jmin] using hw, haw⟩
      | some a =>
        obtain ⟨w, hw, haw⟩ := jmin_shrink t (min a (f j))
        exact ⟨w, by simpa [hg, jmin] using hw,
          le_trans haw (min_le_right a (f j))⟩
    · by_cases hgh : g h = true
      · obtain ⟨w, hw, haw⟩ := ih j (jmin acc (f h)) hjt hg
        exact ⟨w, by simpa [hgh] using hw, haw⟩
      · obtain ⟨w, hw, haw⟩ := ih j acc hjt hg
        exact ⟨w, by simpa [hgh] using hw, haw⟩

theorem jmin_ge {g : Nat → Bool} {f : Nat → Int} :
    ∀ (l : List Nat) (acc : Option Int) (v : Int),
      (∀ a, acc = some a → v ≤ a) → (∀ i ∈ l, g i = true → v ≤ f i) →
      ∀ w, l.foldl (fun best i => if g i then jmin best (f i) else best) acc =
        some w → v ≤ w := by
  intro l
  induction l with
  | nil => intro acc v hacc _ w hw; exact hacc w hw
  | cons h t ih =>
    intro acc v hacc hall w hw
    by_cases hg : g h = true
    · refine ih (jmin acc (f h)) v ?_ (fun i hi => hall i (List.mem_cons_of_mem h hi))
        w (by simpa [hg] using hw)
      intro a ha
      cases acc with
      | none =>
        simp [jmin] at ha
        exact ha ▸ hall h (List.mem_cons_self h t) hg
      | some b =>
        simp [jmin] at ha
        exact ha ▸ le_min (hacc b rfl) (hall h (List.mem_cons_self h t) hg)
    · exact ih acc v hacc (fun i hi => hall i (List.mem_cons_of_mem h hi)) w
        (by simpa [hg] using hw)

theorem jmin_attain {g : Nat → Bool} {f : Nat → Int} :
    ∀ (l : List Nat) (acc : Option Int) (w : Int),
      l.foldl (fun best i => if g i then jmin best (f i) else best) acc = some w →
      acc = some w ∨ ∃ j ∈ l, g j = true ∧ f j = w := by
  intro l
  induction l with
  | nil => intro acc w hw; exact Or.inl hw
  | cons h t ih =>
    intro acc w hw
    by_cases hg : g h = true
    · rcases ih (jmin acc (f h)) w (by simpa [hg] using hw) with hacc | ⟨j, hj, hgj, hfj⟩
      · cases acc with
        | none =>
          simp [jmin] at hacc
          exact Or.inr ⟨h, List.mem_cons_self h t, hg, hacc⟩
        | some a =>
          simp [jmin] at hacc
          rcases min_choice a (f h) with hm | hm
          · exact Or.inl (by rw [← hacc, hm])
          · exact Or.inr ⟨h, List.mem_cons_self h t, hg, by rw [← hacc, hm]⟩
      · exact Or.inr ⟨j, List.mem_cons_of_mem h hj, hgj, hfj⟩
    · rcases ih acc w (by simpa [hg] using hw) with hacc | ⟨j, hj, hgj, hfj⟩
      · exact Or.inl hacc
      · exact Or.inr ⟨j, List.mem_cons_of_mem h hj, hgj, hfj⟩

end TTT

namespace TTT

open Player

/-! ## Lemmas about the best-move tracking folds and the linear scans -/

theorem gbmFold_none {g : Nat → Bool} {f : Nat → Int} :
    ∀ n : Nat,
      ((List.range n).foldl (fun acc i =>
        if g i then
          match acc, f i with
          | none, score => some (i, score)
          | some (m, best), score =>
            if best < score then some (i, score) else some (m, best)
        else acc) none = (none : Option (Nat × Int))) ↔ ∀ j, j < n → g j = false := by
  intro n
  induction n with
  | zero => simp
  | succ n ih =>
    rw [List.range_succ, List.foldl_append]
    constructor
    · intro hnone
      cases hprev : (List.range n).foldl (fun acc i =>
        if g i then
          match acc, f i with
          | none, score => some (i, score)
          | some (m, best), score =>
            if best < score then some (i, score) else some (m, best)
        else acc) none with
      | none =>
        rw [hprev] at hnone
        by_cases hg : g n = true
        · simp [hg] at hnone
        · intro j hj
          rcases Nat.lt_succ_iff_lt_or_eq.mp hj with hj1 | hj1
          · exact (ih.mp hprev) j hj1
          · subst hj1; simpa using hg
      | some p =>
        rw [hprev] at hnone
        by_cases hg : g n = true <;> rcases p with ⟨m, best⟩ <;>
          simp [hg] at hnone
        split at hnone <;> simp at hnone
    · intro hall
      have hprev : (List.range n).foldl (fun acc i =>
        if g i then
          match acc, f i with
          | none, score => some (i, score)
          | some (m, best), score =>
            if best < score then some (i, score) else some (m, best)
        else acc) none = none :=
        ih.mpr fun j hj => hall j (Nat.lt_succ_of_lt hj)
      rw [hprev]
      simp [hall n (Nat.lt_succ_self n)]

theorem gbmFold_some {g : Nat → Bool} {f : Nat → Int} :
    ∀ n j v,
      ((List.range n).foldl (fun acc i =>
        if g i then
          match acc, f i with
          | none, score => some (i, score)
          | some (m, best), score =>
            if best < score then some (i, score) else some (m, best)
        else acc) none = some (j, v)) →
      j < n ∧ g j = true ∧ f j = v ∧ (∀ i, i < n → g i = true → f i ≤ v) ∧
        (∀ i, i < j → g i = true → f i < v) := by
  intro n
  induction n with
  | zero => intro j v h; simp at h
  | succ n ih =>
    intro j v h
    rw [List.range_succ, List.foldl_append] at h
    cases hprev : (List.range n).foldl (fun acc i =>
      if g i then
        match acc, f i with
        | none, score => some (i, score)
        | some (m, best), score =>
          if best < score then some (i, score) else some (m, best)
      else acc) none with
    | none =>
      rw [hprev] at h
      have hall := (gbmFold_none n).mp hprev
      by_cases hg : g n = true
      · simp [hg] at h
        obtain ⟨hj, hv⟩ := h
        subst hj; subst hv
        refine ⟨Nat.lt_succ_self n, hg, rfl, ?_, ?_⟩
        · intro i hi hgi
          rcases Nat.lt_succ_iff_lt_or_eq.mp hi with hi1 | hi1
          · exact absurd hgi (by simp [hall i hi1])
          · subst hi1; exact le_refl _
        · intro i hi hgi
          exact absurd hgi (by simp [hall i hi])
      · simp [hg] at h
    | some p =>
      rcases p with ⟨m, best⟩
      rw [hprev] at h
      obtain ⟨hm, hgm, hfm, hle, hlt⟩ := ih m best hprev
      by_cases hg : g n = true
      · simp [hg] at h
        by_cases hcmp : best < f n
        · rw [if_pos hcmp] at h
          simp only [Option.some.injEq, Prod.mk.injEq] at h
          obtain ⟨hj, hv⟩ := h
          subst hj; subst hv
          refine ⟨Nat.lt_succ_self n, hg, rfl, ?_, ?_⟩
          · intro i hi hgi
            rcases Nat.lt_succ_iff_lt_or_eq.mp hi with hi1 | hi1
            · exact le_of_lt (lt_of_le_of_lt (hle i hi1 hgi) hcmp)
            · subst hi1; exact le_refl _
          · intro i hi hgi
            exact lt_of_le_of_lt (hle i hi hgi) hcmp
        · rw [if_neg hcmp] at h
          simp only [Option.some.injEq, Prod.mk.injEq] at h
          obtain ⟨hj, hv⟩ := h
          subst hj; subst hv
          refine ⟨Nat.lt_succ_of_lt hm, hgm, hfm, ?_, hlt⟩
          intro i hi hgi
          rcases Nat.lt_succ_iff_lt_or_eq.mp hi with hi1 | hi1
          · exact hle i hi1 hgi
          · subst hi1; exact le_of_not_lt hcmp
      · simp [hg] at h
        obtain ⟨hj, hv⟩ := h
        subst hj; subst hv
        refine ⟨Nat.lt_succ_of_lt hm, hgm, hfm, ?_, hlt⟩
        intro i hi hgi
        rcases Nat.lt_succ_iff_lt_or_eq.mp hi with hi1 | hi1
        · exact hle i hi1 hgi
        · subst hi1; exact absurd hgi (by simp [hg])

theorem gbmFoldX_none {g : Nat → Bool} {f : Nat → Int} :
    ∀ n : Nat,
      ((List.range n).foldl (fun acc i =>
        if g i then
          match acc, f i with
          | none, score => some (i, score)
          | some (m, best), score =>
            if score < best then some (i, score) else some (m, best)
        else acc) none = (none : Option (Nat × Int))) ↔ ∀ j, j < n → g j = false := by
  intro n
  induction n with
  | zero => simp
  | succ n ih =>
    rw [List.range_succ, List.foldl_append]
    constructor
    · intro hnone
      cases hprev : (List.range n).foldl (fun acc i =>
        if g i then
          match acc, f i with
          | none, score => some (i, score)
          | some (m, best), score =>
            if score < best then some (i, score) else some (m, best)
        else acc) none with
      | none =>
        rw [hprev] at hnone
        by_cases hg : g n = true
        · simp [hg] at hnone
        · intro j hj
          rcases Nat.lt_succ_iff_lt_or_eq.mp hj with hj1 | hj1
          · exact (ih.mp hprev) j hj1
          · subst hj1; simpa using hg
      | some p =>
        rw [hprev] at hnone
        by_cases hg : g n = true <;> rcases p with ⟨m, best⟩ <;>
          simp [hg] at hnone
        split at hnone <;> simp at hnone
    · intro hall
      have hprev : (List.range n).foldl (fun acc i =>
        if g i then
          match acc, f i with
          | none, score => some (i, score)
          | some (m, best), score =>
            if score < best then some (i, score) else some (m, best)
        else acc) none = none :=
        ih.mpr fun j hj => hall j (Nat.lt_succ_of_lt hj)
      rw [hprev]
      simp [hall n (Nat.lt_succ_self n)]

theorem gbmFoldX_some {g : Nat → Bool} {f : Nat → Int} :
    ∀ n j v,
      ((List.range n).foldl (fun acc i =>
        if g i then
          match acc, f i with
          | none, score => some (i, score)
          | some (m, best), score =>
            if score < best then some (i, score) else some (m, best)
        else acc) none = some (j, v)) →
      j < n ∧ g j = true ∧ f j = v ∧ (∀ i, i < n → g i = true → v ≤ f i) ∧
        (∀ i, i < j → g i = true → v < f i) := by
  intro n
  induction n with
  | zero => intro j v h; simp at h
  | succ n ih =>
    intro j v h
    rw [List.range_succ, List.foldl_append] at h
    cases hprev : (List.range n).foldl (fun acc i =>
      if g i then
        match acc, f i with
        | none, score => some (i, score)
        | some (m, best), score =>
          if score < best then some (i, score) else some (m, best)
      else acc) none with
    | none =>
      rw [hprev] at h
      have hall := (gbmFoldX_none n).mp hprev
      by_cases hg : g n = true
      · simp [hg] at h
        obtain ⟨hj, hv⟩ := h
        subst hj; subst hv
        refine ⟨Nat.lt_succ_self n, hg, rfl, ?_, ?_⟩
        · intro i hi hgi
          rcases Nat.lt_succ_iff_lt_or_eq.mp hi with hi1 | hi1
          · exact absurd hgi (by simp [hall i hi1])
          · subst hi1; exact le_refl _
        · intro i hi hgi
          exact absurd hgi (by simp [hall i hi])
      · simp [hg] at h
    | some p =>
      rcases p with ⟨m, best⟩
      rw [hprev] at h
      obtain ⟨hm, hgm, hfm, hle, hlt⟩ := ih m best hprev
      by_cases hg : g n = true
      · simp [hg] at h
        by_cases hcmp : f n < best
        · rw [if_pos hcmp] at h
          simp only [Option.some.injEq, Prod.mk.injEq] at h
          obtain ⟨hj, hv⟩ := h
          subst hj; subst hv
          refine ⟨Nat.lt_succ_self n, hg, rfl, ?_, ?_⟩
          · intro i hi hgi
            rcases Nat.lt_succ_iff_lt_or_eq.mp hi with hi1 | hi1
            · exact le_of_lt (lt_of_lt_of_le hcmp (hle i hi1 hgi))
            · subst hi1; exact le_refl _
          · intro i hi hgi
            exact lt_of_lt_of_le hcmp (hle i hi hgi)
        · rw [if_neg hcmp] at h
          simp only [Option.some.injEq, Prod.mk.injEq] at h
          obtain ⟨hj, hv⟩ := h
          subst hj; subst hv
          refine ⟨Nat.lt_succ_of_lt hm, hgm, hfm, ?_, hlt⟩
          intro i hi hgi
          rcases Nat.lt_succ_iff_lt_or_eq.mp hi with hi1 | hi1
          · exact hle i hi1 hgi
          · subst hi1; exact le_of_not_lt hcmp
      · simp [hg] at h
        obtain ⟨hj, hv⟩ := h
        subst hj; subst hv
        refine ⟨Nat.lt_succ_of_lt hm, hgm, hfm, ?_, hlt⟩
        intro i hi hgi
        rcases Nat.lt_succ_iff_lt_or_eq.mp hi with hi1 | hi1
        · exact hle i hi1 hgi
        · subst hi1; exact absurd hgi (by simp [hg])

theorem findRange_none {p : Nat → Bool} {n : Nat} :
    (List.range n).find? p = none ↔ ∀ i, i < n → p i = false := by
  rw [List.find?_eq_none]
  constructor
  · intro h i hi
    simpa using h i (List.mem_range.mpr hi)
  · intro h i hi
    simp [h i (List.mem_range.mp hi)]

theorem findRange_some {p : Nat → Bool} :
    ∀ {n j : Nat}, (List.range n).find? p = some j →
      j < n ∧ p j = true ∧ ∀ i, i < j → p i = false := by
  intro n
  induction n with
  | zero => intro j h; simp at h
  | succ n ih =>
    intro j h
    rw [List.range_succ, List.find?_append] at h
    cases hprev : (List.range n).find? p with
    | some m =>
      rw [hprev] at h
      simp [Option.or] at h
      subst h
      obtain ⟨hm, hpm, hfirst⟩ := ih hprev
      exact ⟨Nat.lt_succ_of_lt hm, hpm, hfirst⟩
    | none =>
      rw [hprev] at h
      simp [Option.or] at h
      by_cases hp : p n = true
      · simp [hp] at h
        subst h
        exact ⟨Nat.lt_succ_self n, hp, findRange_none.mp hprev⟩
      · simp [hp] at h

end TTT

namespace TTT

open Player

/-! ## Board bookkeeping -/

theorem jsGet_eq_get? (b : Board) (i : Nat) : jsGet b i = (b.get? i).getD none := by
  simp [jsGet, List.getD_eq_get?]

theorem jsIsNull_lt_length {b : Board} {i : Nat} (h : jsIsNull b i = true) :
    i < b.length := by
  unfold jsIsNull at h
  rw [beq_iff_eq] at h
  obtain ⟨hlt, _⟩ := List.get?_eq_some.mp h
  exact hlt

theorem jsSet_inrange {b : Board} {i : Nat} (v : Option Player) (h : i < b.length) :
    jsSet b i v = b.set i v := by
  simp [jsSet, h]

theorem length_jsSet_inrange {b : Board} {i : Nat} (v : Option Player)
    (h : i < b.length) : (jsSet b i v).length = b.length := by
  simp [jsSet_inrange v h]

theorem get?_jsSet_self {b : Board} {i : Nat} (v : Option Player)
    (h : i < b.length) : (jsSet b i v).get? i = some v := by
  rw [jsSet_inrange v h]
  exact List.get?_set_eq_of_lt v h

theorem get?_jsSet_ne {b : Board} {i j : Nat} (v : Option Player)
    (h : i < b.length) (hne : i ≠ j) : (jsSet b i v).get? j = b.get? j := by
  rw [jsSet_inrange v h]
  exact List.get?_set_ne v b hne

theorem emptyCount_jsSet {b : Board} {i : Nat} (p : Player)
    (h : b.get? i = some none) :
    emptyCount (jsSet b i (some p)) + 1 = emptyCount b := by
  obtain ⟨hlt, hget⟩ := List.get?_eq_some.mp h
  have hgetElem : b[i] = none := by
    rw [← List.get_eq_getElem b ⟨i, hlt⟩]
    exact hget
  have hmem : (none : Option Player) ∈ b := by
    rw [← hgetElem]
    exact List.getElem_mem hlt
  have hpos : 0 < b.count (none : Option Player) := List.count_pos_iff.mpr hmem
  rw [jsSet_inrange (some p) hlt]
  unfold emptyCount
  rw [List.count_set (some p) none b i hlt]
  simp [hgetElem]
  omega

theorem isFull_iff_emptyCount {b : Board} : isFull b = true ↔ emptyCount b = 0 := by
  unfold isFull emptyCount
  rw [List.all_eq_true, List.count_eq_zero]
  constructor
  · intro h hmem
    cases h none hmem
  · intro h c hc
    cases c with
    | none => exact absurd hc h
    | some p => rfl

theorem notFull_exists_empty {b : Board} (h : isFull b = false) :
    ∃ i, i < b.length ∧ jsIsNull b i = true := by
  unfold isFull at h
  rw [Bool.eq_false_iff] at h
  have hmem : (none : Option Player) ∈ b := by
    by_contra hno
    exact h (List.all_eq_true.mpr fun c hc => by
      cases c with
      | none => exact absurd hc hno
      | some p => rfl)
  obtain ⟨n, hn⟩ := List.mem_iff_get?.mp hmem
  obtain ⟨hlt, _⟩ := List.get?_eq_some.mp hn
  refine ⟨n, hlt, ?_⟩
  unfold jsIsNull
  rw [hn]
  decide

theorem notFull_one_le_emptyCount {b : Board} (h : isFull b = false) :
    1 ≤ emptyCount b := by
  rcases Nat.eq_zero_or_pos (emptyCount b) with h0 | h1
  · rw [← isFull_iff_emptyCount] at h0
    rw [h0] at h
    cases h
  · exact h1

/-! ## Equations of `minimax` -/

theorem minimax_winO {size : Nat} (fuel : Nat) (arr : Board) (depth : Nat)
    (isMax : Bool) (h : checkWinner arr size O = true) :
    minimax size fuel arr depth isMax = 10 - (depth : Int) := by
  rw [minimax.eq_def]
  simp [h]

theorem minimax_winX {size : Nat} (fuel : Nat) (arr : Board) (depth : Nat)
    (isMax : Bool) (h1 : checkWinner arr size O = false)
    (h2 : checkWinner arr size X = true) :
    minimax size fuel arr depth isMax = (depth : Int) - 10 := by
  rw [minimax.eq_def]
  simp [h1, h2]

theorem minimax_full {size : Nat} (fuel : Nat) (arr : Board) (depth : Nat)
    (isMax : Bool) (h1 : checkWinner arr size O = false)
    (h2 : checkWinner arr size X = false) (h3 : isFull arr = true) :
    minimax size fuel arr depth isMax = 0 := by
  rw [minimax.eq_def]
  simp [h1, h2, h3]

theorem minimax_fuelzero {size : Nat} (arr : Board) (depth : Nat) (isMax : Bool) :
    minimax size 0 arr depth isMax = 0 ∨
      checkWinner arr size O = true ∨ checkWinner arr size X = true ∨
        isFull arr = true := by
  by_cases h1 : checkWinner arr size O = true
  · exact Or.inr (Or.inl h1)
  · by_cases h2 : checkWinner arr size X = true
    · exact Or.inr (Or.inr (Or.inl h2))
    · by_cases h3 : isFull arr = true
      · exact Or.inr (Or.inr (Or.inr h3))
      · refine Or.inl ?_
        rw [minimax.eq_def]
        simp [Bool.eq_false_iff.mpr h1, Bool.eq_false_iff.mpr h2,
          Bool.eq_false_iff.mpr h3]

theorem minimax_max {size : Nat} (fuel : Nat) (arr : Board) (depth : Nat)
    (h1 : checkWinner arr size O = false) (h2 : checkWinner arr size X = false)
    (h3 : isFull arr = false) :
    minimax size (fuel + 1) arr depth true =
      ((List.range arr.length).foldl (fun best i =>
        if jsIsNull arr i then
          jmax best (minimax size fuel (jsSet arr i (some O)) (depth + 1) false)
        else best) none).getD 0 := by
  conv_lhs => rw [minimax.eq_def]
  simp [h1, h2, h3]

theorem minimax_min {size : Nat} (fuel : Nat) (arr : Board) (depth : Nat)
    (h1 : checkWinner arr size O = false) (h2 : checkWinner arr size X = false)
    (h3 : isFull arr = false) :
    minimax size (fuel + 1) arr depth false =
      ((List.range arr.length).foldl (fun best i =>
        if jsIsNull arr i then
          jmin best (minimax size fuel (jsSet arr i (some X)) (depth + 1) true)
        else best) none).getD 0 := by
  conv_lhs => rw [minimax.eq_def]
  simp [h1, h2, h3]

end TTT

namespace TTT

open Player

/-! ## Fuel irrelevance of `minimax` -/

theorem jsIsNull_eq_some {b : Board} {i : Nat} (h : jsIsNull b i = true) :
    b.get? i = some none := by
  unfold jsIsNull at h
  exact beq_iff_eq.mp h

theorem fold_congr {g : Nat → Bool} {f1 f2 : Nat → Int}
    (comb : Option Int → Int → Option Int) :
    ∀ l : List Nat, (∀ i ∈ l, g i = true → f1 i = f2 i) → ∀ acc : Option Int,
      l.foldl (fun best i => if g i then comb best (f1 i) else best) acc =
        l.foldl (fun best i => if g i then comb best (f2 i) else best) acc := by
  intro l
  induction l with
  | nil => intro _ acc; rfl
  | cons h t ih =>
    intro hpt acc
    by_cases hg : g h = true
    · simp only [List.foldl_cons, hg, if_true,
        hpt h (List.mem_cons_self h t) hg]
      exact ih (fun i hi => hpt i (List.mem_cons_of_mem h hi)) _
    · simp only [List.foldl_cons, hg, if_false]
      exact ih (fun i hi => hpt i (List.mem_cons_of_mem h hi)) acc

theorem minimax_zero_nonterminal {size : Nat} (arr : Board) (depth : Nat)
    (isMax : Bool) (h1 : checkWinner arr size O = false)
    (h2 : checkWinner arr size X = false) (h3 : isFull arr = false) :
    minimax size 0 arr depth isMax = 0 := by
  rw [minimax.eq_def]
  simp [h1, h2, h3]

theorem minimax_fuel {size : Nat} :
    ∀ (fuel fuel2 : Nat) (arr : Board) (depth : Nat) (isMax : Bool),
      emptyCount arr ≤ fuel → emptyCount arr ≤ fuel2 →
      minimax size fuel arr depth isMax = minimax size fuel2 arr depth isMax := by
  intro fuel
  induction fuel with
  | zero =>
    intro fuel2 arr depth isMax h1 _
    have hfull : isFull arr = true := isFull_iff_emptyCount.mpr (Nat.le_zero.mp h1)
    by_cases hO : checkWinner arr size O = true
    · rw [minimax_winO _ _ _ _ hO, minimax_winO _ _ _ _ hO]
    · have hO' : checkWinner arr size O = false := Bool.eq_false_iff.mpr hO
      by_cases hX : checkWinner arr size X = true
      · rw [minimax_winX _ _ _ _ hO' hX, minimax_winX _ _ _ _ hO' hX]
      · have hX' : checkWinner arr size X = false := Bool.eq_false_iff.mpr hX
        rw [minimax_full _ _ _ _ hO' hX' hfull, minimax_full _ _ _ _ hO' hX' hfull]
  | succ f ih =>
    intro fuel2 arr depth isMax h1 h2
    by_cases hO : checkWinner arr size O = true
    · rw [minimax_winO _ _ _ _ hO, minimax_winO _ _ _ _ hO]
    · have hO' : checkWinner arr size O = false := Bool.eq_false_iff.mpr hO
      by_cases hX : checkWinner arr size X = true
      · rw [minimax_winX _ _ _ _ hO' hX, minimax_winX _ _ _ _ hO' hX]
      · have hX' : checkWinner arr size X = false := Bool.eq_false_iff.mpr hX
        by_cases hF : isFull arr = true
        · rw [minimax_full _ _ _ _ hO' hX' hF, minimax_full _ _ _ _ hO' hX' hF]
        · have hF' : isFull arr = false := Bool.eq_false_iff.mpr hF
          have hone : 1 ≤ emptyCount arr := notFull_one_le_emptyCount hF'
          cases fuel2 with
          | zero => omega
          | succ f2 =>
            have hchild : ∀ p : Player, ∀ i ∈ List.range arr.length,
                jsIsNull arr i = true →
                minimax size f (jsSet arr i (some p)) (depth + 1) (!isMax) =
                  minimax size f2 (jsSet arr i (some p)) (depth + 1) (!isMax) := by
              intro p i _ hnull
              have hc := emptyCount_jsSet p (jsIsNull_eq_some hnull)
              exact ih f2 (jsSet arr i (some p)) (depth + 1) (!isMax)
                (by omega) (by omega)
            cases isMax with
            | true =>
              rw [minimax_max f arr depth hO' hX' hF',
                minimax_max f2 arr depth hO' hX' hF']
              rw [fold_congr jmax (List.range arr.length)
                (by simpa using hchild O) none]
            | false =>
              rw [minimax_min f arr depth hO' hX' hF',
                minimax_min f2 arr depth hO' hX' hF']
              rw [fold_congr jmin (List.range arr.length)
                (by simpa using hchild X) none]

/-! ## Depth shift: one extra starting ply rounds every score towards zero -/

theorem shrink_mono : Monotone shrink := by
  intro a b hab
  unfold shrink
  split_ifs <;> omega

theorem shrink_max (a b : Int) : shrink (max a b) = max (shrink a) (shrink b) :=
  shrink_mono.map_max

theorem shrink_min (a b : Int) : shrink (min a b) = min (shrink a) (shrink b) :=
  shrink_mono.map_min

theorem shrink_zero : shrink 0 = 0 := by
  unfold shrink
  norm_num

theorem jmax_map_shrink (o : Option Int) (v : Int) :
    Option.map shrink (jmax o v) = jmax (Option.map shrink o) (shrink v) := by
  cases o <;> simp [jmax, shrink_max]

theorem jmin_map_shrink (o : Option Int) (v : Int) :
    Option.map shrink (jmin o v) = jmin (Option.map shrink o) (shrink v) := by
  cases o <;> simp [jmin, shrink_min]

theorem fold_map_shrink_max {g : Nat → Bool} {f : Nat → Int} :
    ∀ (l : List Nat) (acc : Option Int),
      l.foldl (fun best i => if g i then jmax best (shrink (f i)) else best)
          (Option.map shrink acc) =
        Option.map shrink
          (l.foldl (fun best i => if g i then jmax best (f i) else best) acc) := by
  intro l
  induction l with
  | nil => intro acc; rfl
  | cons h t ih =>
    intro acc
    by_cases hg : g h = true
    · simp only [List.foldl_cons, hg, if_true, ← jmax_map_shrink]
      exact ih (jmax acc (f h))
    · simp only [List.foldl_cons, hg, if_false]
      exact ih acc

theorem fold_map_shrink_min {g : Nat → Bool} {f : Nat → Int} :
    ∀ (l : List Nat) (acc : Option Int),
      l.foldl (fun best i => if g i then jmin best (shrink (f i)) else best)
          (Option.map shrink acc) =
        Option.map shrink
          (l.foldl (fun best i => if g i then jmin best (f i) else best) acc) := by
  intro l
  induction l with
  | nil => intro acc; rfl
  | cons h t ih =>
    intro acc
    by_cases hg : g h = true
    · simp only [List.foldl_cons, hg, if_true, ← jmin_map_shrink]
      exact ih (jmin acc (f h))
    · simp only [List.foldl_cons, hg, if_false]
      exact ih acc

theorem getD_map_shrink (o : Option Int) :
    (Option.map shrink o).getD 0 = shrink (o.getD 0) := by
  cases o <;> simp [shrink_zero]

theorem minimax_depth_succ {size : Nat} :
    ∀ (fuel : Nat) (arr : Board) (depth : Nat) (isMax : Bool),
      depth + emptyCount arr ≤ 9 →
      minimax size fuel arr (depth + 1) isMax =
        shrink (minimax size fuel arr depth isMax) := by
  intro fuel
  induction fuel with
  | zero =>
    intro arr depth isMax hd
    by_cases hO : checkWinner arr size O = true
    · rw [minimax_winO _ _ _ _ hO, minimax_winO _ _ _ _ hO]
      unfold shrink
      split_ifs <;> omega
    · have hO' : checkWinner arr size O = false := Bool.eq_false_iff.mpr hO
      by_cases hX : checkWinner arr size X = true
      · rw [minimax_winX _ _ _ _ hO' hX, minimax_winX _ _ _ _ hO' hX]
        unfold shrink
        split_ifs <;> omega
      · have hX' : checkWinner arr size X = false := Bool.eq_false_iff.mpr hX
        by_cases hF : isFull arr = true
        · rw [minimax_full _ _ _ _ hO' hX' hF, minimax_full _ _ _ _ hO' hX' hF,
            shrink_zero]
        · have hF' : isFull arr = false := Bool.eq_false_iff.mpr hF
          rw [minimax_zero_nonterminal _ _ _ hO' hX' hF',
            minimax_zero_nonterminal _ _ _ hO' hX' hF', shrink_zero]
  | succ f ih =>
    intro arr depth isMax hd
    by_cases hO : checkWinner arr size O = true
    · rw [minimax_winO _ _ _ _ hO, minimax_winO _ _ _ _ hO]
      unfold shrink
      split_ifs <;> omega
    · have hO' : checkWinner arr size O = false := Bool.eq_false_iff.mpr hO
      by_cases hX : checkWinner arr size X = true
      · rw [minimax_winX _ _ _ _ hO' hX, minimax_winX _ _ _ _ hO' hX]
        unfold shrink
        split_ifs <;> omega
      · have hX' : checkWinner arr size X = false := Bool.eq_false_iff.mpr hX
        by_cases hF : isFull arr = true
        · rw [minimax_full _ _ _ _ hO' hX' hF, minimax_full _ _ _ _ hO' hX' hF,
            shrink_zero]
        · have hF' : isFull arr = false := Bool.eq_false_iff.mpr hF
          have hone : 1 ≤ emptyCount arr := notFull_one_le_emptyCount hF'
          have hchild : ∀ p : Player, ∀ i ∈ List.range arr.length,
              jsIsNull arr i = true →
              minimax size f (jsSet arr i (some p)) (depth + 1 + 1) (!true) =
                shrink (minimax size f (jsSet arr i (some p)) (depth + 1) (!true)) := by
            intro p i _ hnull
            have hc := emptyCount_jsSet p (jsIsNull_eq_some hnull)
            exact ih (jsSet arr i (some p)) (depth + 1) (!true) (by omega)
          cases isMax with
          | true =>
            rw [minimax_max f arr (depth + 1) hO' hX' hF',
              minimax_max f arr depth hO' hX' hF']
            rw [fold_congr jmax (List.range arr.length)
              (by simpa using hchild O) none]
            have := fold_map_shrink_max (g := fun i => jsIsNull arr i)
              (f := fun i => minimax size f (jsSet arr i (some O)) (depth + 1) false)
              (List.range arr.length) none
            simp only [Option.map_none'] at this
            rw [this, getD_map_shrink]
          | false =>
            have hchild2 : ∀ i ∈ List.range arr.length,
                jsIsNull arr i = true →
                minimax size f (jsSet arr i (some X)) (depth + 1 + 1) true =
                  shrink (minimax size f (jsSet arr i (some X)) (depth + 1) true) := by
              intro i _ hnull
              have hc := emptyCount_jsSet (p := X) (jsIsNull_eq_some hnull)
              exact ih (jsSet arr i (some X)) (depth + 1) true (by omega)
            rw [minimax_min f arr (depth + 1) hO' hX' hF',
              minimax_min f arr depth hO' hX' hF']
            rw [fold_congr jmin (List.range arr.length) hchild2 none]
            have := fold_map_shrink_min (g := fun i => jsIsNull arr i)
              (f := fun i => minimax size f (jsSet arr i (some X)) (depth + 1) true)
              (List.range arr.length) none
            simp only [Option.map_none'] at this
            rw [this, getD_map_shrink]

theorem minimax_depth_zero {size : Nat} (fuel : Nat) (arr : Board) (isMax : Bool) :
    ∀ depth : Nat, depth + emptyCount arr ≤ 9 →
      minimax size fuel arr depth isMax =
        shrink^[depth] (minimax size fuel arr 0 isMax) := by
  intro depth
  induction depth with
  | zero => intro _; simp
  | succ d ih =>
    intro hd
    rw [minimax_depth_succ fuel arr d isMax (by omega), ih (by omega),
      Function.iterate_succ_apply']

theorem shrink_iterate_nonneg {x : Int} (k : Nat) (h : 0 ≤ x) :
    0 ≤ shrink^[k] x := by
  induction k with
  | zero => simpa
  | succ n ih =>
    rw [Function.iterate_succ_apply']
    generalize hy : shrink^[n] x = y at ih
    unfold shrink
    split_ifs <;> omega

theorem shrink_iterate_mono (k : Nat) : Monotone (shrink^[k]) :=
  Monotone.iterate shrink_mono k

end TTT

namespace TTT

open Player

/-! ## Characterization of `checkWinner` by its candidate lines -/

theorem line_iff {arr : Board} {p : Player} {size s step : Nat} (hsize : 1 ≤ size) :
    ((jsGet arr s).isSome && checkLine arr p size s step) = true ↔
      ∀ i, i < size → jsGet arr (s + i * step) = some p := by
  rw [Bool.and_eq_true]
  unfold checkLine
  rw [List.all_eq_true]
  constructor
  · rintro ⟨_, hall⟩ i hi
    exact beq_iff_eq.mp (hall i (List.mem_range.mpr hi))
  · intro h
    refine ⟨?_, fun i hi => beq_iff_eq.mpr (h i (List.mem_range.mp hi))⟩
    have h0 := h 0 hsize
    rw [Nat.zero_mul, Nat.add_zero] at h0
    rw [h0]
    rfl

theorem checkWinner_iff {arr : Board} {size : Nat} {p : Player} (hsize : 1 ≤ size) :
    checkWinner arr size p = true ↔
      (∃ r, r < size ∧ ∀ i, i < size → jsGet arr (r * size + i * 1) = some p) ∨
      (∃ c, c < size ∧ ∀ i, i < size → jsGet arr (c + i * size) = some p) ∨
      (∀ i, i < size → jsGet arr (0 + i * (size + 1)) = some p) ∨
      (∀ i, i < size → jsGet arr ((size - 1) + i * (size - 1)) = some p) := by
  unfold checkWinner
  rw [Bool.or_eq_true, Bool.or_eq_true, Bool.or_eq_true,
    List.any_eq_true, List.any_eq_true]
  constructor
  · rintro (((⟨r, hr, hline⟩ | ⟨c, hc, hline⟩) | hline) | hline)
    · exact Or.inl ⟨r, List.mem_range.mp hr, (line_iff hsize).mp hline⟩
    · exact Or.inr (Or.inl ⟨c, List.mem_range.mp hc, (line_iff hsize).mp hline⟩)
    · exact Or.inr (Or.inr (Or.inl ((line_iff hsize).mp hline)))
    · exact Or.inr (Or.inr (Or.inr ((line_iff hsize).mp hline)))
  · rintro (⟨r, hr, hline⟩ | ⟨c, hc, hline⟩ | hline | hline)
    · exact Or.inl (Or.inl (Or.inl ⟨r, List.mem_range.mpr hr, (line_iff hsize).mpr hline⟩))
    · exact Or.inl (Or.inl (Or.inr ⟨c, List.mem_range.mpr hc, (line_iff hsize).mpr hline⟩))
    · exact Or.inl (Or.inr ((line_iff hsize).mpr hline))
    · exact Or.inr ((line_iff hsize).mpr hline)

theorem jsGet_jsSet_self {b : Board} {i : Nat} (v : Option Player)
    (h : i < b.length) : jsGet (jsSet b i v) i = v := by
  rw [jsGet_eq_get?, get?_jsSet_self v h]
  rfl

theorem jsGet_jsSet_ne {b : Board} {i j : Nat} (v : Option Player)
    (h : i < b.length) (hne : i ≠ j) : jsGet (jsSet b i v) j = jsGet b j := by
  rw [jsGet_eq_get?, get?_jsSet_ne v h hne, ← jsGet_eq_get?]

theorem lineFull_jsSet_other {b : Board} {i s step size : Nat} {p q : Player}
    (hlt : i < b.length) (hne : p ≠ q)
    (h : ∀ j, j < size → jsGet (jsSet b i (some p)) (s + j * step) = some q) :
    ∀ j, j < size → jsGet b (s + j * step) = some q := by
  intro j hj
  have hh := h j hj
  by_cases he : s + j * step = i
  · rw [he, jsGet_jsSet_self (some p) hlt] at hh
    cases hh
    exact absurd rfl hne
  · rwa [jsGet_jsSet_ne (some p) hlt (fun hi => he hi.symm)] at hh

theorem checkWinner_jsSet_other {b : Board} {i size : Nat} {p q : Player}
    (hsize : 1 ≤ size) (hlt : i < b.length) (hne : p ≠ q)
    (h : checkWinner (jsSet b i (some p)) size q = true) :
    checkWinner b size q = true := by
  rw [checkWinner_iff hsize] at h ⊢
  rcases h with ⟨r, hr, hline⟩ | ⟨c, hc, hline⟩ | hline | hline
  · exact Or.inl ⟨r, hr, lineFull_jsSet_other hlt hne hline⟩
  · exact Or.inr (Or.inl ⟨c, hc, lineFull_jsSet_other hlt hne hline⟩)
  · exact Or.inr (Or.inr (Or.inl (lineFull_jsSet_other hlt hne hline)))
  · exact Or.inr (Or.inr (Or.inr (lineFull_jsSet_other hlt hne hline)))

theorem jsGet_replicate (n k : Nat) :
    jsGet (List.replicate n (none : Option Player)) k = none := by
  rw [jsGet_eq_get?, List.get?_eq_getElem?, List.getElem?_replicate]
  split <;> rfl

theorem checkWinner_replicate (n size : Nat) (p : Player) :
    checkWinner (List.replicate n (none : Option Player)) size p = false := by
  unfold checkWinner
  simp [jsGet_replicate]

/-! ## Case equations of `handleCellClick` -/

theorem handleCellClick_inactive {size : Nat} {s : GameSt} {idx : Nat}
    (h : s.gameActive = false) : handleCellClick size s idx = s := by
  unfold handleCellClick
  simp [h]

theorem handleCellClick_occupied {size : Nat} {s : GameSt} {idx : Nat}
    (h : (jsGet s.board idx).isSome = true) : handleCellClick size s idx = s := by
  unfold handleCellClick
  simp [h]

theorem handleCellClick_win {size : Nat} {s : GameSt} {idx : Nat}
    (ha : s.gameActive = true) (he : (jsGet s.board idx).isSome = false)
    (hw : checkWinner (jsSet s.board idx (some s.currentPlayer)) size
      s.currentPlayer = true) :
    handleCellClick size s idx =
      { s with board := jsSet s.board idx (some s.currentPlayer),
               gameActive := false } := by
  unfold handleCellClick
  simp [ha, he, hw]

theorem handleCellClick_draw {size : Nat} {s : GameSt} {idx : Nat}
    (ha : s.gameActive = true) (he : (jsGet s.board idx).isSome = false)
    (hw : checkWinner (jsSet s.board idx (some s.currentPlayer)) size
      s.currentPlayer = false)
    (hd : isDraw (jsSet s.board idx (some s.currentPlayer)) size = true) :
    handleCellClick size s idx =
      { s with board := jsSet s.board idx (some s.currentPlayer),
               gameActive := false } := by
  unfold handleCellClick
  simp [ha, he, hw, hd]

theorem handleCellClick_next {size : Nat} {s : GameSt} {idx : Nat}
    (ha : s.gameActive = true) (he : (jsGet s.board idx).isSome = false)
    (hw : checkWinner (jsSet s.board idx (some s.currentPlayer)) size
      s.currentPlayer = false)
    (hd : isDraw (jsSet s.board idx (some s.currentPlayer)) size = false) :
    handleCellClick size s idx =
      { s with board := jsSet s.board idx (some s.currentPlayer),
               currentPlayer := other s.currentPlayer } := by
  unfold handleCellClick
  simp [ha, he, hw, hd]

end TTT

namespace TTT

open Player

/-! ## The mask picture of a 3×3 board -/

theorem cellOf_eqX (xm om i : Nat) : (cellOf xm om i == some X) = xm.testBit i := by
  unfold cellOf
  cases hx : xm.testBit i <;> cases ho : om.testBit i <;> simp

theorem cellOf_eqO {xm om : Nat} (hdisj : xm &&& om = 0) (i : Nat) :
    (cellOf xm om i == some O) = om.testBit i := by
  unfold cellOf
  cases hx : xm.testBit i <;> cases ho : om.testBit i <;> simp
  have hbit := congrArg (fun m => m.testBit i) hdisj
  simp [Nat.testBit_and, hx, ho] at hbit

theorem cellOf_isSome (xm om i : Nat) :
    (cellOf xm om i).isSome = (xm.testBit i || om.testBit i) := by
  unfold cellOf
  cases hx : xm.testBit i <;> cases ho : om.testBit i <;> simp

theorem Rep_jsGet {xm om : Nat} {b : Board} (hR : Rep xm om b) {i : Nat}
    (hi : i < 9) : jsGet b i = cellOf xm om i := by
  rw [jsGet_eq_get?, hR.2.2.2.2 i hi]
  rfl

theorem guardLineX (xm om : Nat) (i j k : Nat) :
    ((cellOf xm om i).isSome &&
        (cellOf xm om i == some X &&
          (cellOf xm om j == some X && (cellOf xm om k == some X)))) =
      (xm.testBit i && (xm.testBit j && xm.testBit k)) := by
  rw [cellOf_isSome, cellOf_eqX, cellOf_eqX, cellOf_eqX]
  cases hx : xm.testBit i <;> simp

theorem guardLineO {xm om : Nat} (hdisj : xm &&& om = 0) (i j k : Nat) :
    ((cellOf xm om i).isSome &&
        (cellOf xm om i == some O &&
          (cellOf xm om j == some O && (cellOf xm om k == some O)))) =
      (om.testBit i && (om.testBit j && om.testBit k)) := by
  rw [cellOf_isSome, cellOf_eqO hdisj, cellOf_eqO hdisj, cellOf_eqO hdisj]
  cases ho : om.testBit i <;> simp

theorem Rep_checkWinner_X {xm om : Nat} {b : Board} (hR : Rep xm om b) :
    checkWinner b 3 X = winM xm := by
  have hrange : List.range 3 = [0, 1, 2] := rfl
  unfold checkWinner checkLine
  rw [hrange]
  simp only [List.any_cons, List.any_nil, List.all_cons, List.all_nil]
  norm_num
  rw [Rep_jsGet hR (by norm_num : (0 : Nat) < 9), Rep_jsGet hR (by norm_num : (1 : Nat) < 9),
    Rep_jsGet hR (by norm_num : (2 : Nat) < 9), Rep_jsGet hR (by norm_num : (3 : Nat) < 9),
    Rep_jsGet hR (by norm_num : (4 : Nat) < 9), Rep_jsGet hR (by norm_num : (5 : Nat) < 9),
    Rep_jsGet hR (by norm_num : (6 : Nat) < 9), Rep_jsGet hR (by norm_num : (7 : Nat) < 9),
    Rep_jsGet hR (by norm_num : (8 : Nat) < 9)]
  rw [guardLineX xm om 0 1 2, guardLineX xm om 3 4 5, guardLineX xm om 6 7 8,
    guardLineX xm om 0 3 6, guardLineX xm om 1 4 7, guardLineX xm om 2 5 8,
    guardLineX xm om 0 4 8, guardLineX xm om 2 4 6]
  unfold winM
  simp only [Bool.or_assoc, Bool.or_false, Bool.and_true]

theorem Rep_checkWinner_O {xm om : Nat} {b : Board} (hR : Rep xm om b) :
    checkWinner b 3 O = winM om := by
  have hdisj := hR.2.2.2.1
  have hrange : List.range 3 = [0, 1, 2] := rfl
  unfold checkWinner checkLine
  rw [hrange]
  simp only [List.any_cons, List.any_nil, List.all_cons, List.all_nil]
  norm_num
  rw [Rep_jsGet hR (by norm_num : (0 : Nat) < 9), Rep_jsGet hR (by norm_num : (1 : Nat) < 9),
    Rep_jsGet hR (by norm_num : (2 : Nat) < 9), Rep_jsGet hR (by norm_num : (3 : Nat) < 9),
    Rep_jsGet hR (by norm_num : (4 : Nat) < 9), Rep_jsGet hR (by norm_num : (5 : Nat) < 9),
    Rep_jsGet hR (by norm_num : (6 : Nat) < 9), Rep_jsGet hR (by norm_num : (7 : Nat) < 9),
    Rep_jsGet hR (by norm_num : (8 : Nat) < 9)]
  rw [guardLineO hdisj 0 1 2, guardLineO hdisj 3 4 5, guardLineO hdisj 6 7 8,
    guardLineO hdisj 0 3 6, guardLineO hdisj 1 4 7, guardLineO hdisj 2 5 8,
    guardLineO hdisj 0 4 8, guardLineO hdisj 2 4 6]
  unfold winM
  simp only [Bool.or_assoc, Bool.or_false, Bool.and_true]

end TTT

namespace TTT

open Player

theorem Rep_isFull {xm om : Nat} {b : Board} (hR : Rep xm om b) :
    isFull b = (xm ||| om == 511) := by
  obtain ⟨hlen, hxb, hob, hdisj, hcell⟩ := hR
  rw [Bool.eq_iff_iff]
  unfold isFull
  rw [List.all_eq_true, beq_iff_eq]
  constructor
  · intro hfull
    apply Nat.eq_of_testBit_eq
    intro j
    by_cases hj : j < 9
    · have hmem : cellOf xm om j ∈ b := List.get?_mem (hcell j hj)
      have hsome := hfull (cellOf xm om j) hmem
      rw [cellOf_isSome] at hsome
      rw [Nat.testBit_or, hsome]
      have h511 : (511 : Nat) = 2 ^ 9 - 1 := by norm_num
      rw [h511, Nat.testBit_two_pow_sub_one]
      simp [hj]
    · have hlt : xm ||| om < 2 ^ j := by
        have h9 : (2 : Nat) ^ 9 ≤ 2 ^ j := Nat.pow_le_pow_right (by norm_num) (by omega)
        have : xm ||| om < 2 ^ 9 := Nat.or_lt_two_pow (by simpa using hxb) (by simpa using hob)
        omega
      rw [Nat.testBit_lt_two_pow hlt]
      have h511 : (511 : Nat) = 2 ^ 9 - 1 := by norm_num
      rw [h511, Nat.testBit_two_pow_sub_one]
      simp [hj]
  · intro hor c hc
    obtain ⟨n, hn⟩ := List.mem_iff_get?.mp hc
    obtain ⟨hnlt, _⟩ := List.get?_eq_some.mp hn
    rw [hlen] at hnlt
    have hcn := hcell n hnlt
    rw [hn] at hcn
    cases hcn
    rw [cellOf_isSome, ← Nat.testBit_or, hor]
    have h511 : (511 : Nat) = 2 ^ 9 - 1 := by norm_num
    rw [h511, Nat.testBit_two_pow_sub_one]
    simp [hnlt]

theorem Rep_empty {xm om : Nat} {b : Board} (hR : Rep xm om b) {i : Nat}
    (hi : i < 9) : jsIsNull b i = !(xm ||| om).testBit i := by
  obtain ⟨_, _, _, _, hcell⟩ := hR
  unfold jsIsNull
  rw [hcell i hi, Nat.testBit_or]
  unfold cellOf
  cases hx : xm.testBit i <;> cases ho : om.testBit i <;> simp

theorem Rep_set_X {xm om : Nat} {b : Board} (hR : Rep xm om b) {i : Nat}
    (hi : i < 9) (hfree : (xm ||| om).testBit i = false) :
    Rep (xm ||| (1 <<< i)) om (jsSet b i (some X)) := by
  obtain ⟨hlen, hxb, hob, hdisj, hcell⟩ := hR
  rw [Nat.testBit_or, Bool.or_eq_false_iff] at hfree
  obtain ⟨hxi, hoi⟩ := hfree
  have hpow : (1 <<< i) = 2 ^ i := Nat.one_shiftLeft i
  have hib : i < b.length := by rw [hlen]; exact hi
  refine ⟨?_, ?_, hob, ?_, ?_⟩
  · rw [length_jsSet_inrange _ hib, hlen]
  · rw [hpow]
    have h2 : (2 : Nat) ^ i < 2 ^ 9 := by
      have := Nat.pow_le_pow_right (by norm_num : 1 ≤ 2) (by omega : i + 1 ≤ 9)
      calc (2 : Nat) ^ i < 2 ^ (i + 1) := Nat.pow_lt_pow_succ (by norm_num)
        _ ≤ 2 ^ 9 := this
    have : xm ||| 2 ^ i < 2 ^ 9 := Nat.or_lt_two_pow (by simpa using hxb) h2
    simpa using this
  · apply Nat.eq_of_testBit_eq
    intro j
    rw [Nat.testBit_and, Nat.testBit_or, hpow, Nat.testBit_two_pow, Nat.zero_testBit]
    by_cases hj : i = j
    · subst hj
      simp [hxi, hoi]
    · have hdj := congrArg (fun m => m.testBit j) hdisj
      simp [Nat.testBit_and, Nat.zero_testBit] at hdj
      simp [hj]
      intro hx
      exact hdj hx
  · intro k hk
    by_cases hki : i = k
    · subst hki
      rw [get?_jsSet_self _ hib]
      unfold cellOf
      rw [Nat.testBit_or, hpow, Nat.testBit_two_pow]
      simp
    · rw [get?_jsSet_ne _ hib hki, hcell k hk]
      unfold cellOf
      rw [Nat.testBit_or, hpow, Nat.testBit_two_pow]
      simp [hki]

theorem Rep_set_O {xm om : Nat} {b : Board} (hR : Rep xm om b) {i : Nat}
    (hi : i < 9) (hfree : (xm ||| om).testBit i = false) :
    Rep xm (om ||| (1 <<< i)) (jsSet b i (some O)) := by
  obtain ⟨hlen, hxb, hob, hdisj, hcell⟩ := hR
  rw [Nat.testBit_or, Bool.or_eq_false_iff] at hfree
  obtain ⟨hxi, hoi⟩ := hfree
  have hpow : (1 <<< i) = 2 ^ i := Nat.one_shiftLeft i
  have hib : i < b.length := by rw [hlen]; exact hi
  refine ⟨?_, hxb, ?_, ?_, ?_⟩
  · rw [length_jsSet_inrange _ hib, hlen]
  · rw [hpow]
    have h2 : (2 : Nat) ^ i < 2 ^ 9 := by
      have := Nat.pow_le_pow_right (by norm_num : 1 ≤ 2) (by omega : i + 1 ≤ 9)
      calc (2 : Nat) ^ i < 2 ^ (i + 1) := Nat.pow_lt_pow_succ (by norm_num)
        _ ≤ 2 ^ 9 := this
    have : om ||| 2 ^ i < 2 ^ 9 := Nat.or_lt_two_pow (by simpa using hob) h2
    simpa using this
  · apply Nat.eq_of_testBit_eq
    intro j
    rw [Nat.testBit_and, Nat.testBit_or, hpow, Nat.testBit_two_pow, Nat.zero_testBit]
    by_cases hj : i = j
    · subst hj
      simp [hxi, hoi]
    · have hdj := congrArg (fun m => m.testBit j) hdisj
      simp [Nat.testBit_and, Nat.zero_testBit] at hdj
      simp [hj]
      intro hx
      exact hdj hx
  · intro k hk
    by_cases hki : i = k
    · subst hki
      rw [get?_jsSet_self _ hib]
      unfold cellOf
      rw [Nat.testBit_or, hpow, Nat.testBit_two_pow]
      simp [hxi]
    · rw [get?_jsSet_ne _ hib hki, hcell k hk]
      unfold cellOf
      rw [Nat.testBit_or, hpow, Nat.testBit_two_pow]
      simp [hki]

theorem Rep_init : Rep 0 0 (List.replicate 9 none) := by
  refine ⟨by simp, by norm_num, by norm_num, by norm_num, ?_⟩
  intro i hi
  rw [List.get?_eq_getElem?, List.getElem?_replicate, if_pos hi]
  unfold cellOf
  simp

theorem certOrder_lt : ∀ i ∈ certOrder, i < 9 := by decide

theorem certOrder_mem : ∀ i, i < 9 → i ∈ certOrder := by decide

end TTT


namespace TTT

open Player

/-! ## Equations of the search certificates -/

theorem canGE_winO {v : Int} {xm om : Nat} {d : Nat} {m : Bool} (fuel : Nat)
    (h : winM om = true) :
    canGE v fuel xm om d m = decide (v ≤ 10 - (d : Int)) := by
  cases fuel with
  | zero => rw [canGE]; simp [h]
  | succ f => rw [canGE]; simp [h]

theorem canGE_winX {v : Int} {xm om : Nat} {d : Nat} {m : Bool} (fuel : Nat)
    (h1 : winM om = false) (h2 : winM xm = true) :
    canGE v fuel xm om d m = decide (v ≤ (d : Int) - 10) := by
  cases fuel with
  | zero => rw [canGE]; simp [h1, h2]
  | succ f => rw [canGE]; simp [h1, h2]

theorem canGE_full {v : Int} {xm om : Nat} {d : Nat} {m : Bool} (fuel : Nat)
    (h1 : winM om = false) (h2 : winM xm = false)
    (h3 : (xm ||| om == 511) = true) :
    canGE v fuel xm om d m = decide (v ≤ 0) := by
  cases fuel with
  | zero => rw [canGE]; simp [h1, h2, h3]
  | succ f => rw [canGE]; simp [h1, h2, h3]

theorem canGE_zero_nonterm {v : Int} {xm om : Nat} {d : Nat} {m : Bool}
    (h1 : winM om = false) (h2 : winM xm = false)
    (h3 : (xm ||| om == 511) = false) :
    canGE v 0 xm om d m = false := by
  rw [canGE]; simp [h1, h2, h3]

theorem canGE_max {v : Int} {xm om : Nat} {d : Nat} (fuel : Nat)
    (h1 : winM om = false) (h2 : winM xm = false)
    (h3 : (xm ||| om == 511) = false) :
    canGE v (fuel + 1) xm om d true =
      certOrder.any fun i =>
        !(xm ||| om).testBit i && canGE v fuel xm (om ||| (1 <<< i)) (d + 1) false := by
  rw [canGE]; simp [h1, h2, h3]

theorem canGE_min {v : Int} {xm om : Nat} {d : Nat} (fuel : Nat)
    (h1 : winM om = false) (h2 : winM xm = false)
    (h3 : (xm ||| om == 511) = false) :
    canGE v (fuel + 1) xm om d false =
      certOrder.all fun i =>
        (xm ||| om).testBit i || canGE v fuel (xm ||| (1 <<< i)) om (d + 1) true := by
  rw [canGE]; simp [h1, h2, h3]

theorem canLE_winO {v : Int} {xm om : Nat} {d : Nat} {m : Bool} (fuel : Nat)
    (h : winM om = true) :
    canLE v fuel xm om d m = decide (10 - (d : Int) ≤ v) := by
  cases fuel with
  | zero => rw [canLE]; simp [h]
  | succ f => rw [canLE]; simp [h]

theorem canLE_winX {v : Int} {xm om : Nat} {d : Nat} {m : Bool} (fuel : Nat)
    (h1 : winM om = false) (h2 : winM xm = true) :
    canLE v fuel xm om d m = decide ((d : Int) - 10 ≤ v) := by
  cases fuel with
  | zero => rw [canLE]; simp [h1, h2]
  | succ f => rw [canLE]; simp [h1, h2]

theorem canLE_full {v : Int} {xm om : Nat} {d : Nat} {m : Bool} (fuel : Nat)
    (h1 : winM om = false) (h2 : winM xm = false)
    (h3 : (xm ||| om == 511) = true) :
    canLE v fuel xm om d m = decide ((0 : Int) ≤ v) := by
  cases fuel with
  | zero => rw [canLE]; simp [h1, h2, h3]
  | succ f => rw [canLE]; simp [h1, h2, h3]

theorem canLE_zero_nonterm {v : Int} {xm om : Nat} {d : Nat} {m : Bool}
    (h1 : winM om = false) (h2 : winM xm = false)
    (h3 : (xm ||| om == 511) = false) :
    canLE v 0 xm om d m = false := by
  rw [canLE]; simp [h1, h2, h3]

theorem canLE_max {v : Int} {xm om : Nat} {d : Nat} (fuel : Nat)
    (h1 : winM om = false) (h2 : winM xm = false)
    (h3 : (xm ||| om == 511) = false) :
    canLE v (fuel + 1) xm om d true =
      certOrder.all fun i =>
        (xm ||| om).testBit i || canLE v fuel xm (om ||| (1 <<< i)) (d + 1) false := by
  rw [canLE]; simp [h1, h2, h3]

theorem canLE_min {v : Int} {xm om : Nat} {d : Nat} (fuel : Nat)
    (h1 : winM om = false) (h2 : winM xm = false)
    (h3 : (xm ||| om == 511) = false) :
    canLE v (fuel + 1) xm om d false =
      certOrder.any fun i =>
        !(xm ||| om).testBit i && canLE v fuel (xm ||| (1 <<< i)) om (d + 1) true := by
  rw [canLE]; simp [h1, h2, h3]

end TTT

namespace TTT

open Player

/-! ## Soundness of the search certificates -/

theorem canGE_sound :
    ∀ (fuel : Nat) (v : Int) (xm om d : Nat) (m : Bool) (b : Board),
      Rep xm om b → canGE v fuel xm om d m = true →
      v ≤ minimax 3 fuel b d m := by
  intro fuel
  induction fuel with
  | zero =>
    intro v xm om d m b hR hc
    by_cases hOm : winM om = true
    · have hO : checkWinner b 3 O = true := by rw [Rep_checkWinner_O hR]; exact hOm
      rw [canGE_winO 0 hOm] at hc
      rw [minimax_winO _ _ _ _ hO]
      exact of_decide_eq_true hc
    · have hOm' : winM om = false := Bool.eq_false_iff.mpr hOm
      have hO' : checkWinner b 3 O = false := by rw [Rep_checkWinner_O hR]; exact hOm'
      by_cases hXm : winM xm = true
      · have hX : checkWinner b 3 X = true := by rw [Rep_checkWinner_X hR]; exact hXm
        rw [canGE_winX 0 hOm' hXm] at hc
        rw [minimax_winX _ _ _ _ hO' hX]
        exact of_decide_eq_true hc
      · have hXm' : winM xm = false := Bool.eq_false_iff.mpr hXm
        have hX' : checkWinner b 3 X = false := by rw [Rep_checkWinner_X hR]; exact hXm'
        by_cases hFm : (xm ||| om == 511) = true
        · have hF : isFull b = true := by rw [Rep_isFull hR]; exact hFm
          rw [canGE_full 0 hOm' hXm' hFm] at hc
          rw [minimax_full _ _ _ _ hO' hX' hF]
          exact of_decide_eq_true hc
        · have hFm' : (xm ||| om == 511) = false := Bool.eq_false_iff.mpr hFm
          rw [canGE_zero_nonterm hOm' hXm' hFm'] at hc
          cases hc
  | succ f ih =>
    intro v xm om d m b hR hc
    have hlen9 : b.length = 9 := hR.1
    by_cases hOm : winM om = true
    · have hO : checkWinner b 3 O = true := by rw [Rep_checkWinner_O hR]; exact hOm
      rw [canGE_winO (f + 1) hOm] at hc
      rw [minimax_winO _ _ _ _ hO]
      exact of_decide_eq_true hc
    · have hOm' : winM om = false := Bool.eq_false_iff.mpr hOm
      have hO' : checkWinner b 3 O = false := by rw [Rep_checkWinner_O hR]; exact hOm'
      by_cases hXm : winM xm = true
      · have hX : checkWinner b 3 X = true := by rw [Rep_checkWinner_X hR]; exact hXm
        rw [canGE_winX (f + 1) hOm' hXm] at hc
        rw [minimax_winX _ _ _ _ hO' hX]
        exact of_decide_eq_true hc
      · have hXm' : winM xm = false := Bool.eq_false_iff.mpr hXm
        have hX' : checkWinner b 3 X = false := by rw [Rep_checkWinner_X hR]; exact hXm'
        by_cases hFm : (xm ||| om == 511) = true
        · have hF : isFull b = true := by rw [Rep_isFull hR]; exact hFm
          rw [canGE_full (f + 1) hOm' hXm' hFm] at hc
          rw [minimax_full _ _ _ _ hO' hX' hF]
          exact of_decide_eq_true hc
        · have hFm' : (xm ||| om == 511) = false := Bool.eq_false_iff.mpr hFm
          have hF' : isFull b = false := by rw [Rep_isFull hR]; exact hFm'
          cases m with
          | true =>
            rw [canGE_max f hOm' hXm' hFm'] at hc
            rw [List.any_eq_true] at hc
            obtain ⟨i, hmem, hbody⟩ := hc
            rw [Bool.and_eq_true] at hbody
            obtain ⟨hfreeB, hcert⟩ := hbody
            rw [Bool.not_eq_true'] at hfreeB
            have hi9 : i < 9 := certOrder_lt i hmem
            have hIH := ih v xm (om ||| (1 <<< i)) (d + 1) false _
              (Rep_set_O hR hi9 hfreeB) hcert
            rw [minimax_max f b d hO' hX' hF']
            have hguard : jsIsNull b i = true := by
              rw [Rep_empty hR hi9, hfreeB]
              rfl
            obtain ⟨w, hw, hge⟩ := jmax_mem_ge (List.range b.length) i none
              (by rw [hlen9]; exact List.mem_range.mpr hi9) hguard
            rw [hw]
            simp only [Option.getD_some]
            exact le_trans hIH hge
          | false =>
            rw [canGE_min f hOm' hXm' hFm'] at hc
            rw [List.all_eq_true] at hc
            rw [minimax_min f b d hO' hX' hF']
            obtain ⟨i0, hi0b, hi0null⟩ := notFull_exists_empty hF'
            obtain ⟨w, hw, hwle⟩ := jmin_mem_le (List.range b.length) i0 none
              (List.mem_range.mpr hi0b) hi0null
            rw [hw]
            simp only [Option.getD_some]
            refine jmin_ge (List.range b.length) none v
              (fun a ha => by cases ha) ?_ w hw
            intro i himem hguard
            have hib : i < b.length := List.mem_range.mp himem
            have hi9 : i < 9 := by omega
            have hline := hc i (certOrder_mem i hi9)
            rw [Bool.or_eq_true] at hline
            have hfree : (xm ||| om).testBit i = false := by
              have hrep := Rep_empty hR hi9
              rw [hguard] at hrep
              cases htb2 : (xm ||| om).testBit i
              · rfl
              · rw [htb2] at hrep
                cases hrep
            rcases hline with htb | hcert
            · rw [hfree] at htb
              cases htb
            · exact ih v (xm ||| (1 <<< i)) om (d + 1) true _
                (Rep_set_X hR hi9 hfree) hcert

theorem canLE_sound :
    ∀ (fuel : Nat) (v : Int) (xm om d : Nat) (m : Bool) (b : Board),
      Rep xm om b → canLE v fuel xm om d m = true →
      minimax 3 fuel b d m ≤ v := by
  intro fuel
  induction fuel with
  | zero =>
    intro v xm om d m b hR hc
    by_cases hOm : winM om = true
    · have hO : checkWinner b 3 O = true := by rw [Rep_checkWinner_O hR]; exact hOm
      rw [canLE_winO 0 hOm] at hc
      rw [minimax_winO _ _ _ _ hO]
      exact of_decide_eq_true hc
    · have hOm' : winM om = false := Bool.eq_false_iff.mpr hOm
      have hO' : checkWinner b 3 O = false := by rw [Rep_checkWinner_O hR]; exact hOm'
      by_cases hXm : winM xm = true
      · have hX : checkWinner b 3 X = true := by rw [Rep_checkWinner_X hR]; exact hXm
        rw [canLE_winX 0 hOm' hXm] at hc
        rw [minimax_winX _ _ _ _ hO' hX]
        exact of_decide_eq_true hc
      · have hXm' : winM xm = false := Bool.eq_false_iff.mpr hXm
        have hX' : checkWinner b 3 X = false := by rw [Rep_checkWinner_X hR]; exact hXm'
        by_cases hFm : (xm ||| om == 511) = true
        · have hF : isFull b = true := by rw [Rep_isFull hR]; exact hFm
          rw [canLE_full 0 hOm' hXm' hFm] at hc
          rw [minimax_full _ _ _ _ hO' hX' hF]
          exact of_decide_eq_true hc
        · have hFm' : (xm ||| om == 511) = false := Bool.eq_false_iff.mpr hFm
          rw [canLE_zero_nonterm hOm' hXm' hFm'] at hc
          cases hc
  | succ f ih =>
    intro v xm om d m b hR hc
    have hlen9 : b.length = 9 := hR.1
    by_cases hOm : winM om = true
    · have hO : checkWinner b 3 O = true := by rw [Rep_checkWinner_O hR]; exact hOm
      rw [canLE_winO (f + 1) hOm] at hc
      rw [minimax_winO _ _ _ _ hO]
      exact of_decide_eq_true hc
    · have hOm' : winM om = false := Bool.eq_false_iff.mpr hOm
      have hO' : checkWinner b 3 O = false := by rw [Rep_checkWinner_O hR]; exact hOm'
      by_cases hXm : winM xm = true
      · have hX : checkWinner b 3 X = true := by rw [Rep_checkWinner_X hR]; exact hXm
        rw [canLE_winX (f + 1) hOm' hXm] at hc
        rw [minimax_winX _ _ _ _ hO' hX]
        exact of_decide_eq_true hc
      · have hXm' : winM xm = false := Bool.eq_false_iff.mpr hXm
        have hX' : checkWinner b 3 X = false := by rw [Rep_checkWinner_X hR]; exact hXm'
        by_cases hFm : (xm ||| om == 511) = true
        · have hF : isFull b = true := by rw [Rep_isFull hR]; exact hFm
          rw [canLE_full (f + 1) hOm' hXm' hFm] at hc
          rw [minimax_full _ _ _ _ hO' hX' hF]
          exact of_decide_eq_true hc
        · have hFm' : (xm ||| om == 511) = false := Bool.eq_false_iff.mpr hFm
          have hF' : isFull b = false := by rw [Rep_isFull hR]; exact hFm'
          cases m with
          | true =>
            rw [canLE_max f hOm' hXm' hFm'] at hc
            rw [List.all_eq_true] at hc
            rw [minimax_max f b d hO' hX' hF']
            obtain ⟨i0, hi0b, hi0null⟩ := notFull_exists_empty hF'
            obtain ⟨w, hw, hwge⟩ := jmax_mem_ge (List.range b.length) i0 none
              (List.mem_range.mpr hi0b) hi0null
            rw [hw]
            simp only [Option.getD_some]
            refine jmax_le (List.range b.length) none v
              (fun a ha => by cases ha) ?_ w hw
            intro i himem hguard
            have hib : i < b.length := List.mem_range.mp himem
            have hi9 : i < 9 := by omega
            have hline := hc i (certOrder_mem i hi9)
            rw [Bool.or_eq_true] at hline
            have hfree : (xm ||| om).testBit i = false := by
              have hrep := Rep_empty hR hi9
              rw [hguard] at hrep
              cases htb2 : (xm ||| om).testBit i
              · rfl
              · rw [htb2] at hrep
                cases hrep
            rcases hline with htb | hcert
            · rw [hfree] at htb
              cases htb
            · exact ih v xm (om ||| (1 <<< i)) (d + 1) false _
                (Rep_set_O hR hi9 hfree) hcert
          | false =>
            rw [canLE_min f hOm' hXm' hFm'] at hc
            rw [List.any_eq_true] at hc
            obtain ⟨i, hmem, hbody⟩ := hc
            rw [Bool.and_eq_true] at hbody
            obtain ⟨hfreeB, hcert⟩ := hbody
            rw [Bool.not_eq_true'] at hfreeB
            have hi9 : i < 9 := certOrder_lt i hmem
            have hIH := ih v (xm ||| (1 <<< i)) om (d + 1) true _
              (Rep_set_X hR hi9 hfreeB) hcert
            rw [minimax_min f b d hO' hX' hF']
            have hguard : jsIsNull b i = true := by
              rw [Rep_empty hR hi9, hfreeB]
              rfl
            obtain ⟨w, hw, hle⟩ := jmin_mem_le (List.range b.length) i none
              (by rw [hlen9]; exact List.mem_range.mpr hi9) hguard
            rw [hw]
            simp only [Option.getD_some]
            exact le_trans hle hIH

end TTT

namespace TTT

open Player

/-! ## What the hard selectors return -/

theorem getBestMove_none {fuel size : Nat} {b : Board} :
    getBestMove fuel size b = none ↔ ∀ i, i < b.length → jsIsNull b i = false := by
  unfold getBestMove
  rw [Option.map_eq_none']
  exact gbmFold_none b.length

theorem getBestMove_some {fuel size : Nat} {b : Board} {j : Nat}
    (h : getBestMove fuel size b = some j) :
    j < b.length ∧ jsIsNull b j = true ∧
      (∀ i, i < b.length → jsIsNull b i = true →
        minimax size fuel (jsSet b i (some O)) 0 false ≤
          minimax size fuel (jsSet b j (some O)) 0 false) ∧
      (∀ i, i < j → jsIsNull b i = true →
        minimax size fuel (jsSet b i (some O)) 0 false <
          minimax size fuel (jsSet b j (some O)) 0 false) := by
  unfold getBestMove at h
  rw [Option.map_eq_some'] at h
  obtain ⟨⟨j2, v⟩, hfold, hj⟩ := h
  simp only at hj
  subst hj
  obtain ⟨hlt, hguard, hfj, hle, hstrict⟩ := gbmFold_some b.length j2 v hfold
  refine ⟨hlt, hguard, ?_, ?_⟩
  · intro i hi hg
    have hh := hle i hi hg
    rw [← hfj] at hh
    exact hh
  · intro i hi hg
    have hh := hstrict i hi hg
    rw [← hfj] at hh
    exact hh

theorem getBestMove_intro {fuel size : Nat} {b : Board} {j : Nat}
    (hj : j < b.length) (hnull : jsIsNull b j = true)
    (hmax : ∀ i, i < b.length → jsIsNull b i = true →
      minimax size fuel (jsSet b i (some O)) 0 false ≤
        minimax size fuel (jsSet b j (some O)) 0 false)
    (hstrict : ∀ i, i < j → jsIsNull b i = true →
      minimax size fuel (jsSet b i (some O)) 0 false <
        minimax size fuel (jsSet b j (some O)) 0 false) :
    getBestMove fuel size b = some j := by
  cases h : getBestMove fuel size b with
  | none =>
    have := getBestMove_none.mp h j hj
    rw [hnull] at this
    cases this
  | some j2 =>
    obtain ⟨hj2, hnull2, hle2, hstrict2⟩ := getBestMove_some h
    rcases lt_trichotomy j j2 with hlt | heq | hgt
    · have h1 := hstrict2 j hlt hnull
      have h2 := hmax j2 hj2 hnull2
      exact absurd (lt_of_le_of_lt h2 h1) (lt_irrefl _)
    · rw [heq]
    · have h1 := hstrict j2 hgt hnull2
      have h2 := hle2 j hj hnull
      exact absurd (lt_of_le_of_lt h2 h1) (lt_irrefl _)

theorem getBestMoveX_none {fuel size : Nat} {b : Board} :
    getBestMoveX fuel size b = none ↔ ∀ i, i < b.length → jsIsNull b i = false := by
  unfold getBestMoveX
  rw [Option.map_eq_none']
  exact gbmFoldX_none b.length

theorem getBestMoveX_some {fuel size : Nat} {b : Board} {j : Nat}
    (h : getBestMoveX fuel size b = some j) :
    j < b.length ∧ jsIsNull b j = true ∧
      (∀ i, i < b.length → jsIsNull b i = true →
        minimax size fuel (jsSet b j (some X)) 0 true ≤
          minimax size fuel (jsSet b i (some X)) 0 true) ∧
      (∀ i, i < j → jsIsNull b i = true →
        minimax size fuel (jsSet b j (some X)) 0 true <
          minimax size fuel (jsSet b i (some X)) 0 true) := by
  unfold getBestMoveX at h
  rw [Option.map_eq_some'] at h
  obtain ⟨⟨j2, v⟩, hfold, hj⟩ := h
  simp only at hj
  subst hj
  obtain ⟨hlt, hguard, hfj, hle, hstrict⟩ := gbmFoldX_some b.length j2 v hfold
  refine ⟨hlt, hguard, ?_, ?_⟩
  · intro i hi hg
    have hh := hle i hi hg
    rw [← hfj] at hh
    exact hh
  · intro i hi hg
    have hh := hstrict i hi hg
    rw [← hfj] at hh
    exact hh

theorem getBestMoveX_intro {fuel size : Nat} {b : Board} {j : Nat}
    (hj : j < b.length) (hnull : jsIsNull b j = true)
    (hmin : ∀ i, i < b.length → jsIsNull b i = true →
      minimax size fuel (jsSet b j (some X)) 0 true ≤
        minimax size fuel (jsSet b i (some X)) 0 true)
    (hstrict : ∀ i, i < j → jsIsNull b i = true →
      minimax size fuel (jsSet b j (some X)) 0 true <
        minimax size fuel (jsSet b i (some X)) 0 true) :
    getBestMoveX fuel size b = some j := by
  cases h : getBestMoveX fuel size b with
  | none =>
    have := getBestMoveX_none.mp h j hj
    rw [hnull] at this
    cases this
  | some j2 =>
    obtain ⟨hj2, hnull2, hle2, hstrict2⟩ := getBestMoveX_some h
    rcases lt_trichotomy j j2 with hlt | heq | hgt
    · have h1 := hstrict2 j hlt hnull
      have h2 := hmin j2 hj2 hnull2
      exact absurd (lt_of_lt_of_le h1 h2) (lt_irrefl _)
    · rw [heq]
    · have h1 := hstrict j2 hgt hnull2
      have h2 := hle2 j hj hnull
      exact absurd (lt_of_lt_of_le h1 h2) (lt_irrefl _)

end TTT

namespace TTT

open Player

/-! ## Small glue facts -/

theorem emptyCount_le (b : Board) : emptyCount b ≤ b.length :=
  List.count_le_length none b

theorem get?_of_inrange_empty {b : Board} {i : Nat} (hib : i < b.length)
    (he : (jsGet b i).isSome = false) : b.get? i = some none := by
  cases hg : b.get? i with
  | none =>
    rw [List.get?_eq_none] at hg
    omega
  | some c =>
    rw [jsGet_eq_get?, hg] at he
    cases c with
    | none => rfl
    | some p => cases he

theorem jsIsNull_of_inrange_empty {b : Board} {i : Nat} (hib : i < b.length)
    (he : (jsGet b i).isSome = false) : jsIsNull b i = true := by
  unfold jsIsNull
  rw [get?_of_inrange_empty hib he]
  rfl

theorem isDraw_false_notFull {arr : Board} {size : Nat}
    (h1 : checkWinner arr size X = false) (h2 : checkWinner arr size O = false)
    (hd : isDraw arr size = false) : isFull arr = false := by
  unfold isDraw at hd
  rw [h1, h2] at hd
  simpa using hd

theorem emptyCount_pos {b : Board} {i : Nat} (h : b.get? i = some none) :
    1 ≤ emptyCount b := by
  have hmem : (none : Option Player) ∈ b := List.get?_mem h
  exact List.count_pos_iff.mpr hmem

end TTT

namespace TTT

open Player

theorem jsGet_isSome_false_of_null {b : Board} {i : Nat}
    (h : jsIsNull b i = true) : (jsGet b i).isSome = false := by
  rw [jsGet_eq_get?, jsIsNull_eq_some h]
  rfl

theorem hardStep_of_inactive {s : GameSt} {i : Nat}
    (h : (handleCellClick 3 s i).gameActive = false) :
    hardStep s i = handleCellClick 3 s i := by
  unfold hardStep
  simp [h]

theorem hardStep_of_notO {s : GameSt} {i : Nat}
    (h : (handleCellClick 3 s i).currentPlayer = X) :
    hardStep s i = handleCellClick 3 s i := by
  unfold hardStep
  simp [h]

theorem hardStep_of_O {s : GameSt} {i j : Nat}
    (ha : (handleCellClick 3 s i).gameActive = true)
    (hp : (handleCellClick 3 s i).currentPlayer = O)
    (hj : getBestMove 9 3 (handleCellClick 3 s i).board = some j) :
    hardStep s i = handleCellClick 3 (handleCellClick 3 s i) j := by
  unfold hardStep
  simp [ha, hp, hj]

end TTT

namespace TTT

open Player

/-! ## The invariant is preserved by a round against the hard AI -/

theorem hardStep_inv {s : GameSt} {i : Nat} (hInv : HardInv s) (hi : i < 9) :
    HardInv (hardStep s i) := by
  obtain ⟨hlen, hnoX, hact, hterm⟩ := hInv
  by_cases hA : s.gameActive = true
  case neg =>
    have hA' : s.gameActive = false := Bool.eq_false_iff.mpr hA
    have hnop : handleCellClick 3 s i = s := handleCellClick_inactive hA'
    rw [hardStep_of_inactive (by rw [hnop]; exact hA'), hnop]
    exact ⟨hlen, hnoX, hact, hterm⟩
  case pos =>
    obtain ⟨hP, hOw, hFw, hval⟩ := hact hA
    by_cases hE : (jsGet s.board i).isSome = true
    · have hnop : handleCellClick 3 s i = s := handleCellClick_occupied hE
      rw [hardStep_of_notO (by rw [hnop]; exact hP), hnop]
      exact ⟨hlen, hnoX, fun _ => ⟨hP, hOw, hFw, hval⟩, hterm⟩
    · have hE' : (jsGet s.board i).isSome = false := Bool.eq_false_iff.mpr hE
      have hib : i < s.board.length := by omega
      have hget : s.board.get? i = some none := get?_of_inrange_empty hib hE'
      have hni : jsIsNull s.board i = true := jsIsNull_of_inrange_empty hib hE'
      have hone : 1 ≤ emptyCount s.board := emptyCount_pos hget
      have hle9 : emptyCount s.board ≤ 9 := by
        have := emptyCount_le s.board
        omega
      have he1 : emptyCount (jsSet s.board i (some X)) + 1 = emptyCount s.board :=
        emptyCount_jsSet X hget
      have hlen1 : (jsSet s.board i (some X)).length = 9 := by
        rw [length_jsSet_inrange _ hib]
        exact hlen
      have hval1 : 0 ≤ minimax 3 9 (jsSet s.board i (some X))
          (9 - emptyCount s.board + 1) true := by
        have hval' : 0 ≤ minimax 3 (8 + 1) s.board (9 - emptyCount s.board) false :=
          hval
        rw [minimax_min 8 s.board (9 - emptyCount s.board) hOw hnoX hFw] at hval'
        obtain ⟨w, hw, hwle⟩ := jmin_mem_le (List.range s.board.length) i none
          (List.mem_range.mpr hib) hni
        rw [hw] at hval'
        simp only [Option.getD_some] at hval'
        have h8 : minimax 3 8 (jsSet s.board i (some X))
            (9 - emptyCount s.board + 1) true =
            minimax 3 9 (jsSet s.board i (some X))
              (9 - emptyCount s.board + 1) true :=
          minimax_fuel 8 9 _ _ _ (by omega) (by omega)
        rw [← h8]
        exact le_trans hval' hwle
      have hO1 : checkWinner (jsSet s.board i (some X)) 3 O = false := by
        apply Bool.eq_false_iff.mpr
        intro hcon
        have hc2 := checkWinner_jsSet_other (by norm_num) hib
          (by decide : X ≠ O) hcon
        rw [hOw] at hc2
        cases hc2
      have hX1 : checkWinner (jsSet s.board i (some X)) 3 X = false := by
        apply Bool.eq_false_iff.mpr
        intro hcon
        have hvv := minimax_winX 9 (jsSet s.board i (some X))
          (9 - emptyCount s.board + 1) true hO1 hcon
        rw [hvv] at hval1
        omega
      by_cases hD : isDraw (jsSet s.board i (some X)) 3 = true
      · -- X's move fills the board: draw, game over
        have hstep := handleCellClick_draw hA hE' (by rw [hP]; exact hX1)
          (by rw [hP]; exact hD)
        rw [hP] at hstep
        rw [hardStep_of_inactive (by rw [hstep])]
        rw [hstep]
        exact ⟨hlen1, hX1, fun hcon => by simp at hcon, fun _ => Or.inr hD⟩
      · -- the game goes on; now it is O's turn and the AI answers
        have hD2 : isDraw (jsSet s.board i (some X)) 3 = false :=
          Bool.eq_false_iff.mpr hD
        have hF1 : isFull (jsSet s.board i (some X)) = false :=
          isDraw_false_notFull hX1 hO1 hD2
        have hone1 : 1 ≤ emptyCount (jsSet s.board i (some X)) :=
          notFull_one_le_emptyCount hF1
        have hstep1 := handleCellClick_next hA hE' (by rw [hP]; exact hX1)
          (by rw [hP]; exact hD2)
        rw [hP] at hstep1
        have hb1 : (handleCellClick 3 s i).board = jsSet s.board i (some X) := by
          rw [hstep1]
        have hp1 : (handleCellClick 3 s i).currentPlayer = O := by
          rw [hstep1]
          rfl
        have ha1 : (handleCellClick 3 s i).gameActive = true := by
          rw [hstep1]
          exact hA
        obtain ⟨i0, hi0lt, hi0null⟩ := notFull_exists_empty hF1
        cases hbm : getBestMove 9 3 (jsSet s.board i (some X)) with
        | none =>
          have hcon := getBestMove_none.mp hbm i0 hi0lt
          rw [hi0null] at hcon
          cases hcon
        | some j =>
          obtain ⟨hjlt, hjnull, hjmax, hjstrict⟩ := getBestMove_some hbm
          have hget1j : (jsSet s.board i (some X)).get? j = some none :=
            jsIsNull_eq_some hjnull
          have he2 : emptyCount (jsSet (jsSet s.board i (some X)) j (some O)) + 1 =
              emptyCount (jsSet s.board i (some X)) := emptyCount_jsSet O hget1j
          have hlen2 : (jsSet (jsSet s.board i (some X)) j (some O)).length = 9 := by
            rw [length_jsSet_inrange _ hjlt]
            exact hlen1
          -- the value of the position after O's (best) reply is still ≥ 0
          have hval2 : 0 ≤ minimax 3 9 (jsSet (jsSet s.board i (some X)) j (some O))
              (9 - emptyCount s.board + 1 + 1) false := by
            have hval1a : 0 ≤ minimax 3 (8 + 1) (jsSet s.board i (some X))
                (9 - emptyCount s.board + 1) true := hval1
            rw [minimax_max 8 (jsSet s.board i (some X))
              (9 - emptyCount s.board + 1) hO1 hX1 hF1] at hval1a
            obtain ⟨w0, hw0, _⟩ := jmax_mem_ge
              (List.range (jsSet s.board i (some X)).length) j none
              (List.mem_range.mpr hjlt) hjnull
            rw [hw0] at hval1a
            simp only [Option.getD_some] at hval1a
            rcases jmax_attain (List.range (jsSet s.board i (some X)).length)
              none w0 hw0 with habs | ⟨i0a, hi0mem, hi0g, hfi0⟩
            · cases habs
            · have hi0lt9 : i0a < (jsSet s.board i (some X)).length :=
                List.mem_range.mp hi0mem
              have hgi0 : (jsSet s.board i (some X)).get? i0a = some none :=
                jsIsNull_eq_some hi0g
              have hcc : emptyCount (jsSet (jsSet s.board i (some X)) i0a (some O)) + 1 =
                  emptyCount (jsSet s.board i (some X)) := emptyCount_jsSet O hgi0
              have hcv8 : minimax 3 8 (jsSet (jsSet s.board i (some X)) i0a (some O))
                  (9 - emptyCount s.board + 1 + 1) false =
                  minimax 3 9 (jsSet (jsSet s.board i (some X)) i0a (some O))
                    (9 - emptyCount s.board + 1 + 1) false :=
                minimax_fuel 8 9 _ _ _ (by omega) (by omega)
              have hdz0 : minimax 3 9 (jsSet (jsSet s.board i (some X)) i0a (some O))
                  (9 - emptyCount s.board + 1 + 1) false =
                  shrink^[9 - emptyCount s.board + 1 + 1]
                    (minimax 3 9 (jsSet (jsSet s.board i (some X)) i0a (some O)) 0 false) :=
                minimax_depth_zero 9 _ false _ (by omega)
              have hdzj : minimax 3 9 (jsSet (jsSet s.board i (some X)) j (some O))
                  (9 - emptyCount s.board + 1 + 1) false =
                  shrink^[9 - emptyCount s.board + 1 + 1]
                    (minimax 3 9 (jsSet (jsSet s.board i (some X)) j (some O)) 0 false) :=
                minimax_depth_zero 9 _ false _ (by omega)
              have hmono := shrink_iterate_mono (9 - emptyCount s.board + 1 + 1)
                (hjmax i0a hi0lt9 hi0g)
              rw [hdzj]
              calc (0 : Int) ≤ w0 := hval1a
                _ = minimax 3 8 (jsSet (jsSet s.board i (some X)) i0a (some O))
                    (9 - emptyCount s.board + 1 + 1) false := hfi0.symm
                _ = shrink^[9 - emptyCount s.board + 1 + 1]
                    (minimax 3 9 (jsSet (jsSet s.board i (some X)) i0a (some O)) 0 false) := by
                    rw [hcv8, hdz0]
                _ ≤ shrink^[9 - emptyCount s.board + 1 + 1]
                    (minimax 3 9 (jsSet (jsSet s.board i (some X)) j (some O)) 0 false) :=
                    hmono
          -- the AI's click
          have hj2 : getBestMove 9 3 (handleCellClick 3 s i).board = some j := by
            rw [hb1]
            exact hbm
          have hstep2 := hardStep_of_O ha1 hp1 hj2
          have hXpres : checkWinner (jsSet (jsSet s.board i (some X)) j (some O)) 3 X
              = false := by
            apply Bool.eq_false_iff.mpr
            intro hcon
            have hc2 := checkWinner_jsSet_other (by norm_num) hjlt
              (by decide : O ≠ X) hcon
            rw [hX1] at hc2
            cases hc2
          have hE2 : (jsGet (handleCellClick 3 s i).board j).isSome = false := by
            rw [hb1]
            exact jsGet_isSome_false_of_null hjnull
          rw [hstep2]
          by_cases hwO : checkWinner (jsSet (jsSet s.board i (some X)) j (some O)) 3 O
              = true
          · -- O wins: game over, and X has no line
            have hw2 : checkWinner (jsSet (handleCellClick 3 s i).board j
                (some (handleCellClick 3 s i).currentPlayer)) 3
                (handleCellClick 3 s i).currentPlayer = true := by
              rw [hb1, hp1]
              exact hwO
            rw [handleCellClick_win ha1 hE2 hw2, hb1, hp1]
            exact ⟨hlen2, hXpres, fun hcon => by simp at hcon, fun _ => Or.inl hwO⟩
          · have hwO2 : checkWinner (jsSet (jsSet s.board i (some X)) j (some O)) 3 O
                = false := Bool.eq_false_iff.mpr hwO
            have hw2 : checkWinner (jsSet (handleCellClick 3 s i).board j
                (some (handleCellClick 3 s i).currentPlayer)) 3
                (handleCellClick 3 s i).currentPlayer = false := by
              rw [hb1, hp1]
              exact hwO2
            by_cases hD3 : isDraw (jsSet (jsSet s.board i (some X)) j (some O)) 3 = true
            · have hd2 : isDraw (jsSet (handleCellClick 3 s i).board j
                  (some (handleCellClick 3 s i).currentPlayer)) 3 = true := by
                rw [hb1, hp1]
                exact hD3
              rw [handleCellClick_draw ha1 hE2 hw2 hd2, hb1, hp1]
              exact ⟨hlen2, hXpres, fun hcon => by simp at hcon, fun _ => Or.inr hD3⟩
            · have hD3' : isDraw (jsSet (jsSet s.board i (some X)) j (some O)) 3 = false :=
                Bool.eq_false_iff.mpr hD3
              have hd2 : isDraw (jsSet (handleCellClick 3 s i).board j
                  (some (handleCellClick 3 s i).currentPlayer)) 3 = false := by
                rw [hb1, hp1]
                exact hD3'
              have hF2 : isFull (jsSet (jsSet s.board i (some X)) j (some O)) = false :=
                isDraw_false_notFull hXpres hwO2 hD3'
              rw [handleCellClick_next ha1 hE2 hw2 hd2, hb1, hp1]
              refine ⟨hlen2, hXpres, fun _ => ⟨rfl, hwO2, hF2, ?_⟩,
                fun hcon => by simp [ha1] at hcon⟩
              have hdd : 9 - emptyCount (jsSet (jsSet s.board i (some X)) j (some O)) =
                  9 - emptyCount s.board + 1 + 1 := by omega
              rw [hdd]
              exact hval2

end TTT

namespace TTT

open Player

theorem hardRun_inv : ∀ (xs : List Nat) (s : GameSt), HardInv s →
    (∀ i ∈ xs, i < 9) → HardInv (hardRun s xs) := by
  intro xs
  induction xs with
  | nil => intro s h _; exact h
  | cons x t ih =>
    intro s h hall
    exact ih (hardStep s x) (hardStep_inv h (hall x (List.mem_cons_self x t)))
      (fun i hi => hall i (List.mem_cons_of_mem x hi))

theorem hardInv_init : HardInv initSt := by
  refine ⟨by simp [initSt], checkWinner_replicate 9 3 X,
    fun _ => ⟨rfl, checkWinner_replicate 9 3 O, by decide, ?_⟩,
    fun hcon => by simp [initSt] at hcon⟩
  have hcount : emptyCount (List.replicate 9 (none : Option Player)) = 9 := by decide
  show 0 ≤ minimax 3 9 (List.replicate 9 none) (9 - emptyCount (List.replicate 9 none)) false
  rw [hcount]
  have hbase := canGE_sound 9 0 0 0 0 false (List.replicate 9 none) Rep_init
    (by decide)
  simpa using hbase

end TTT

namespace TTT

open Player

/-! ## Unfolding self-play steps -/

theorem selfStep_X {s : GameSt} {j : Nat} (ha : s.gameActive = true)
    (hp : s.currentPlayer = X) (h : getBestMoveX 9 3 s.board = some j) :
    selfStep s = handleCellClick 3 s j := by
  unfold selfStep
  simp [ha, hp, h]

theorem selfStep_O {s : GameSt} {j : Nat} (ha : s.gameActive = true)
    (hp : s.currentPlayer = O) (h : getBestMove 9 3 s.board = some j) :
    selfStep s = handleCellClick 3 s j := by
  unfold selfStep
  simp [ha, hp, h]

theorem selfStep_inactive {s : GameSt} (ha : s.gameActive = false) :
    selfStep s = s := by
  unfold selfStep
  simp [ha]

end TTT

namespace TTT

open Player

/-! ## The minimax self-play trajectory on the 3x3 board -/

theorem selfSel1 : getBestMoveX 9 3 ([none, none, none, none, none, none, none, none, none] : Board) = some 0 := by
  have hv0 : minimax 3 9 (jsSet ([none, none, none, none, none, none, none, none, none] : Board) 0 (some X)) 0 true ≤ 0 :=
    canLE_sound 9 0 1 0 0 true _ (by decide) (by decide)
  have hv1 : (0 : Int) ≤ minimax 3 9 (jsSet ([none, none, none, none, none, none, none, none, none] : Board) 1 (some X)) 0 true :=
    canGE_sound 9 0 2 0 0 true _ (by decide) (by decide)
  have hv2 : (0 : Int) ≤ minimax 3 9 (jsSet ([none, none, none, none, none, none, none, none, none] : Board) 2 (some X)) 0 true :=
    canGE_sound 9 0 4 0 0 true _ (by decide) (by decide)
  have hv3 : (0 : Int) ≤ minimax 3 9 (jsSet ([none, none, none, none, none, none, none, none, none] : Board) 3 (some X)) 0 true :=
    canGE_sound 9 0 8 0 0 true _ (by decide) (by decide)
  have hv4 : (0 : Int) ≤ minimax 3 9 (jsSet ([none, none, none, none, none, none, none, none, none] : Board) 4 (some X)) 0 true :=
    canGE_sound 9 0 16 0 0 true _ (by decide) (by decide)
  have hv5 : (0 : Int) ≤ minimax 3 9 (jsSet ([none, none, none, none, none, none, none, none, none] : Board) 5 (some X)) 0 true :=
    canGE_sound 9 0 32 0 0 true _ (by decide) (by decide)
  have hv6 : (0 : Int) ≤ minimax 3 9 (jsSet ([none, none, none, none, none, none, none, none, none] : Board) 6 (some X)) 0 true :=
    canGE_sound 9 0 64 0 0 true _ (by decide) (by decide)
  have hv7 : (0 : Int) ≤ minimax 3 9 (jsSet ([none, none, none, none, none, none, none, none, none] : Board) 7 (some X)) 0 true :=
    canGE_sound 9 0 128 0 0 true _ (by decide) (by decide)
  have hv8 : (0 : Int) ≤ minimax 3 9 (jsSet ([none, none, none, none, none, none, none, none, none] : Board) 8 (some X)) 0 true :=
    canGE_sound 9 0 256 0 0 true _ (by decide) (by decide)
  refine getBestMoveX_intro (by decide) (by decide) ?_ ?_
  · intro i hilt hinull
    have hi9 : i < 9 := by simpa using hilt
    interval_cases i
    · exact le_refl _
    · exact le_trans hv0 hv1
    · exact le_trans hv0 hv2
    · exact le_trans hv0 hv3
    · exact le_trans hv0 hv4
    · exact le_trans hv0 hv5
    · exact le_trans hv0 hv6
    · exact le_trans hv0 hv7
    · exact le_trans hv0 hv8
  · intro i hij hinull
    exact absurd hij (by omega)

theorem selfSel2 : getBestMove 9 3 ([some X, none, none, none, none, none, none, none, none] : Board) = some 4 := by
  have hv1 : minimax 3 9 (jsSet ([some X, none, none, none, none, none, none, none, none] : Board) 1 (some O)) 0 false ≤ (-1) :=
    canLE_sound 9 (-1) 1 2 0 false _ (by decide) (by decide)
  have hv2 : minimax 3 9 (jsSet ([some X, none, none, none, none, none, none, none, none] : Board) 2 (some O)) 0 false ≤ (-1) :=
    canLE_sound 9 (-1) 1 4 0 false _ (by decide) (by decide)
  have hv3 : minimax 3 9 (jsSet ([some X, none, none, none, none, none, none, none, none] : Board) 3 (some O)) 0 false ≤ (-1) :=
    canLE_sound 9 (-1) 1 8 0 false _ (by decide) (by decide)
  have hv4 : (0 : Int) ≤ minimax 3 9 (jsSet ([some X, none, none, none, none, none, none, none, none] : Board) 4 (some O)) 0 false :=
    canGE_sound 9 0 1 16 0 false _ (by decide) (by decide)
  have hv5 : minimax 3 9 (jsSet ([some X, none, none, none, none, none, none, none, none] : Board) 5 (some O)) 0 false ≤ 0 :=
    canLE_sound 9 0 1 32 0 false _ (by decide) (by decide)
  have hv6 : minimax 3 9 (jsSet ([some X, none, none, none, none, none, none, none, none] : Board) 6 (some O)) 0 false ≤ 0 :=
    canLE_sound 9 0 1 64 0 false _ (by decide) (by decide)
  have hv7 : minimax 3 9 (jsSet ([some X, none, none, none, none, none, none, none, none] : Board) 7 (some O)) 0 false ≤ 0 :=
    canLE_sound 9 0 1 128 0 false _ (by decide) (by decide)
  have hv8 : minimax 3 9 (jsSet ([some X, none, none, none, none, none, none, none, none] : Board) 8 (some O)) 0 false ≤ 0 :=
    canLE_sound 9 0 1 256 0 false _ (by decide) (by decide)
  refine getBestMove_intro (by decide) (by decide) ?_ ?_
  · intro i hilt hinull
    have hi9 : i < 9 := by simpa using hilt
    interval_cases i
    · exact absurd hinull (by decide)
    · exact le_trans hv1 (le_trans (by norm_num) hv4)
    · exact le_trans hv2 (le_trans (by norm_num) hv4)
    · exact le_trans hv3 (le_trans (by norm_num) hv4)
    · exact le_refl _
    · exact le_trans hv5 hv4
    · exact le_trans hv6 hv4
    · exact le_trans hv7 hv4
    · exact le_trans hv8 hv4
  · intro i hij hinull
    have hi9 : i < 4 := hij
    interval_cases i
    · exact absurd hinull (by decide)
    · exact lt_of_le_of_lt hv1 (lt_of_lt_of_le (by norm_num) hv4)
    · exact lt_of_le_of_lt hv2 (lt_of_lt_of_le (by norm_num) hv4)
    · exact lt_of_le_of_lt hv3 (lt_of_lt_of_le (by norm_num) hv4)

theorem selfSel3 : getBestMoveX 9 3 ([some X, none, none, none, some O, none, none, none, none] : Board) = some 1 := by
  have hv1 : minimax 3 9 (jsSet ([some X, none, none, none, some O, none, none, none, none] : Board) 1 (some X)) 0 true ≤ 0 :=
    canLE_sound 9 0 3 16 0 true _ (by decide) (by decide)
  have hv2 : (0 : Int) ≤ minimax 3 9 (jsSet ([some X, none, none, none, some O, none, none, none, none] : Board) 2 (some X)) 0 true :=
    canGE_sound 9 0 5 16 0 true _ (by decide) (by decide)
  have hv3 : (0 : Int) ≤ minimax 3 9 (jsSet ([some X, none, none, none, some O, none, none, none, none] : Board) 3 (some X)) 0 true :=
    canGE_sound 9 0 9 16 0 true _ (by decide) (by decide)
  have hv5 : (0 : Int) ≤ minimax 3 9 (jsSet ([some X, none, none, none, some O, none, none, none, none] : Board) 5 (some X)) 0 true :=
    canGE_sound 9 0 33 16 0 true _ (by decide) (by decide)
  have hv6 : (0 : Int) ≤ minimax 3 9 (jsSet ([some X, none, none, none, some O, none, none, none, none] : Board) 6 (some X)) 0 true :=
    canGE_sound 9 0 65 16 0 true _ (by decide) (by decide)
  have hv7 : (0 : Int) ≤ minimax 3 9 (jsSet ([some X, none, none, none, some O, none, none, none, none] : Board) 7 (some X)) 0 true :=
    canGE_sound 9 0 129 16 0 true _ (by decide) (by decide)
  have hv8 : (0 : Int) ≤ minimax 3 9 (jsSet ([some X, none, none, none, some O, none, none, none, none] : Board) 8 (some X)) 0 true :=
    canGE_sound 9 0 257 16 0 true _ (by decide) (by decide)
  refine getBestMoveX_intro (by decide) (by decide) ?_ ?_
  · intro i hilt hinull
    have hi9 : i < 9 := by simpa using hilt
    interval_cases i
    · exact absurd hinull (by decide)
    · exact le_refl _
    · exact le_trans hv1 hv2
    · exact le_trans hv1 hv3
    · exact absurd hinull (by decide)
    · exact le_trans hv1 hv5
    · exact le_trans hv1 hv6
    · exact le_trans hv1 hv7
    · exact le_trans hv1 hv8
  · intro i hij hinull
    have hi9 : i < 1 := hij
    interval_cases i
    · exact absurd hinull (by decide)

theorem selfSel4 : getBestMove 9 3 ([some X, some X, none, none, some O, none, none, none, none] : Board) = some 2 := by
  have hv2 : (0 : Int) ≤ minimax 3 9 (jsSet ([some X, some X, none, none, some O, none, none, none, none] : Board) 2 (some O)) 0 false :=
    canGE_sound 9 0 3 20 0 false _ (by decide) (by decide)
  have hv3 : minimax 3 9 (jsSet ([some X, some X, none, none, some O, none, none, none, none] : Board) 3 (some O)) 0 false ≤ 0 :=
    canLE_sound 9 0 3 24 0 false _ (by decide) (by decide)
  have hv5 : minimax 3 9 (jsSet ([some X, some X, none, none, some O, none, none, none, none] : Board) 5 (some O)) 0 false ≤ 0 :=
    canLE_sound 9 0 3 48 0 false _ (by decide) (by decide)
  have hv6 : minimax 3 9 (jsSet ([some X, some X, none, none, some O, none, none, none, none] : Board) 6 (some O)) 0 false ≤ 0 :=
    canLE_sound 9 0 3 80 0 false _ (by decide) (by decide)
  have hv7 : minimax 3 9 (jsSet ([some X, some X, none, none, some O, none, none, none, none] : Board) 7 (some O)) 0 false ≤ 0 :=
    canLE_sound 9 0 3 144 0 false _ (by decide) (by decide)
  have hv8 : minimax 3 9 (jsSet ([some X, some X, none, none, some O, none, none, none, none] : Board) 8 (some O)) 0 false ≤ 0 :=
    canLE_sound 9 0 3 272 0 false _ (by decide) (by decide)
  refine getBestMove_intro (by decide) (by decide) ?_ ?_
  · intro i hilt hinull
    have hi9 : i < 9 := by simpa using hilt
    interval_cases i
    · exact absurd hinull (by decide)
    · exact absurd hinull (by decide)
    · exact le_refl _
    · exact le_trans hv3 hv2
    · exact absurd hinull (by decide)
    · exact le_trans hv5 hv2
    · exact le_trans hv6 hv2
    · exact le_trans hv7 hv2
    · exact le_trans hv8 hv2
  · intro i hij hinull
    have hi9 : i < 2 := hij
    interval_cases i
    · exact absurd hinull (by decide)
    · exact absurd hinull (by decide)

theorem selfSel5 : getBestMoveX 9 3 ([some X, some X, some O, none, some O, none, none, none, none] : Board) = some 6 := by
  have hv3 : (1 : Int) ≤ minimax 3 9 (jsSet ([some X, some X, some O, none, some O, none, none, none, none] : Board) 3 (some X)) 0 true :=
    canGE_sound 9 1 11 20 0 true _ (by decide) (by decide)
  have hv5 : (1 : Int) ≤ minimax 3 9 (jsSet ([some X, some X, some O, none, some O, none, none, none, none] : Board) 5 (some X)) 0 true :=
    canGE_sound 9 1 35 20 0 true _ (by decide) (by decide)
  have hv6 : minimax 3 9 (jsSet ([some X, some X, some O, none, some O, none, none, none, none] : Board) 6 (some X)) 0 true ≤ 0 :=
    canLE_sound 9 0 67 20 0 true _ (by decide) (by decide)
  have hv7 : (0 : Int) ≤ minimax 3 9 (jsSet ([some X, some X, some O, none, some O, none, none, none, none] : Board) 7 (some X)) 0 true :=
    canGE_sound 9 0 131 20 0 true _ (by decide) (by decide)
  have hv8 : (0 : Int) ≤ minimax 3 9 (jsSet ([some X, some X, some O, none, some O, none, none, none, none] : Board) 8 (some X)) 0 true :=
    canGE_sound 9 0 259 20 0 true _ (by decide) (by decide)
  refine getBestMoveX_intro (by decide) (by decide) ?_ ?_
  · intro i hilt hinull
    have hi9 : i < 9 := by simpa using hilt
    interval_cases i
    · exact absurd hinull (by decide)
    · exact absurd hinull (by decide)
    · exact absurd hinull (by decide)
    · exact le_trans hv6 (le_trans (by norm_num) hv3)
    · exact absurd hinull (by decide)
    · exact le_trans hv6 (le_trans (by norm_num) hv5)
    · exact le_refl _
    · exact le_trans hv6 hv7
    · exact le_trans hv6 hv8
  · intro i hij hinull
    have hi9 : i < 6 := hij
    interval_cases i
    · exact absurd hinull (by decide)
    · exact absurd hinull (by decide)
    · exact absurd hinull (by decide)
    · exact lt_of_le_of_lt hv6 (lt_of_lt_of_le (by norm_num) hv3)
    · exact absurd hinull (by decide)
    · exact lt_of_le_of_lt hv6 (lt_of_lt_of_le (by norm_num) hv5)

theorem selfSel6 : getBestMove 9 3 ([some X, some X, some O, none, some O, none, some X, none, none] : Board) = some 3 := by
  have hv3 : (0 : Int) ≤ minimax 3 9 (jsSet ([some X, some X, some O, none, some O, none, some X, none, none] : Board) 3 (some O)) 0 false :=
    canGE_sound 9 0 67 28 0 false _ (by decide) (by decide)
  have hv5 : minimax 3 9 (jsSet ([some X, some X, some O, none, some O, none, some X, none, none] : Board) 5 (some O)) 0 false ≤ 0 :=
    canLE_sound 9 0 67 52 0 false _ (by decide) (by decide)
  have hv7 : minimax 3 9 (jsSet ([some X, some X, some O, none, some O, none, some X, none, none] : Board) 7 (some O)) 0 false ≤ 0 :=
    canLE_sound 9 0 67 148 0 false _ (by decide) (by decide)
  have hv8 : minimax 3 9 (jsSet ([some X, some X, some O, none, some O, none, some X, none, none] : Board) 8 (some O)) 0 false ≤ 0 :=
    canLE_sound 9 0 67 276 0 false _ (by decide) (by decide)
  refine getBestMove_intro (by decide) (by decide) ?_ ?_
  · intro i hilt hinull
    have hi9 : i < 9 := by simpa using hilt
    interval_cases i
    · exact absurd hinull (by decide)
    · exact absurd hinull (by decide)
    · exact absurd hinull (by decide)
    · exact le_refl _
    · exact absurd hinull (by decide)
    · exact le_trans hv5 hv3
    · exact absurd hinull (by decide)
    · exact le_trans hv7 hv3
    · exact le_trans hv8 hv3
  · intro i hij hinull
    have hi9 : i < 3 := hij
    interval_cases i
    · exact absurd hinull (by decide)
    · exact absurd hinull (by decide)
    · exact absurd hinull (by decide)

theorem selfSel7 : getBestMoveX 9 3 ([some X, some X, some O, some O, some O, none, some X, none, none] : Board) = some 5 := by
  have hv5 : minimax 3 9 (jsSet ([some X, some X, some O, some O, some O, none, some X, none, none] : Board) 5 (some X)) 0 true ≤ 0 :=
    canLE_sound 9 0 99 28 0 true _ (by decide) (by decide)
  have hv7 : (0 : Int) ≤ minimax 3 9 (jsSet ([some X, some X, some O, some O, some O, none, some X, none, none] : Board) 7 (some X)) 0 true :=
    canGE_sound 9 0 195 28 0 true _ (by decide) (by decide)
  have hv8 : (0 : Int) ≤ minimax 3 9 (jsSet ([some X, some X, some O, some O, some O, none, some X, none, none] : Board) 8 (some X)) 0 true :=
    canGE_sound 9 0 323 28 0 true _ (by decide) (by decide)
  refine getBestMoveX_intro (by decide) (by decide) ?_ ?_
  · intro i hilt hinull
    have hi9 : i < 9 := by simpa using hilt
    interval_cases i
    · exact absurd hinull (by decide)
    · exact absurd hinull (by decide)
    · exact absurd hinull (by decide)
    · exact absurd hinull (by decide)
    · exact absurd hinull (by decide)
    · exact le_refl _
    · exact absurd hinull (by decide)
    · exact le_trans hv5 hv7
    · exact le_trans hv5 hv8
  · intro i hij hinull
    have hi9 : i < 5 := hij
    interval_cases i
    · exact absurd hinull (by decide)
    · exact absurd hinull (by decide)
    · exact absurd hinull (by decide)
    · exact absurd hinull (by decide)
    · exact absurd hinull (by decide)

theorem selfSel8 : getBestMove 9 3 ([some X, some X, some O, some O, some O, some X, some X, none, none] : Board) = some 7 := by
  have hv7 : (0 : Int) ≤ minimax 3 9 (jsSet ([some X, some X, some O, some O, some O, some X, some X, none, none] : Board) 7 (some O)) 0 false :=
    canGE_sound 9 0 99 156 0 false _ (by decide) (by decide)
  have hv8 : minimax 3 9 (jsSet ([some X, some X, some O, some O, some O, some X, some X, none, none] : Board) 8 (some O)) 0 false ≤ 0 :=
    canLE_sound 9 0 99 284 0 false _ (by decide) (by decide)
  refine getBestMove_intro (by decide) (by decide) ?_ ?_
  · intro i hilt hinull
    have hi9 : i < 9 := by simpa using hilt
    interval_cases i
    · exact absurd hinull (by decide)
    · exact absurd hinull (by decide)
    · exact absurd hinull (by decide)
    · exact absurd hinull (by decide)
    · exact absurd hinull (by decide)
    · exact absurd hinull (by decide)
    · exact absurd hinull (by decide)
    · exact le_refl _
    · exact le_trans hv8 hv7
  · intro i hij hinull
    have hi9 : i < 7 := hij
    interval_cases i
    · exact absurd hinull (by decide)
    · exact absurd hinull (by decide)
    · exact absurd hinull (by decide)
    · exact absurd hinull (by decide)
    · exact absurd hinull (by decide)
    · exact absurd hinull (by decide)
    · exact absurd hinull (by decide)

theorem selfSel9 : getBestMoveX 9 3 ([some X, some X, some O, some O, some O, some X, some X, some O, none] : Board) = some 8 := by
  have hv8 : minimax 3 9 (jsSet ([some X, some X, some O, some O, some O, some X, some X, some O, none] : Board) 8 (some X)) 0 true ≤ 0 :=
    canLE_sound 9 0 355 156 0 true _ (by decide) (by decide)
  refine getBestMoveX_intro (by decide) (by decide) ?_ ?_
  · intro i hilt hinull
    have hi9 : i < 9 := by simpa using hilt
    interval_cases i
    · exact absurd hinull (by decide)
    · exact absurd hinull (by decide)
    · exact absurd hinull (by decide)
    · exact absurd hinull (by decide)
    · exact absurd hinull (by decide)
    · exact absurd hinull (by decide)
    · exact absurd hinull (by decide)
    · exact absurd hinull (by decide)
    · exact le_refl _
  · intro i hij hinull
    have hi9 : i < 8 := hij
    interval_cases i
    · exact absurd hinull (by decide)
    · exact absurd hinull (by decide)
    · exact absurd hinull (by decide)
    · exact absurd hinull (by decide)
    · exact absurd hinull (by decide)
    · exact absurd hinull (by decide)
    · exact absurd hinull (by decide)
    · exact absurd hinull (by decide)

theorem selfRunEq1 : selfRun 1 = (⟨([some X, none, none, none, none, none, none, none, none] : Board), O, true⟩ : GameSt) := by
  have hprev : selfRun 0 = (⟨([none, none, none, none, none, none, none, none, none] : Board), X, true⟩ : GameSt) := rfl
  have hstep : selfStep (⟨([none, none, none, none, none, none, none, none, none] : Board), X, true⟩ : GameSt) = handleCellClick 3 (⟨([none, none, none, none, none, none, none, none, none] : Board), X, true⟩ : GameSt) 0 :=
    selfStep_X rfl rfl selfSel1
  show selfStep (selfRun 0) = _
  rw [hprev, hstep]
  decide

theorem selfRunEq2 : selfRun 2 = (⟨([some X, none, none, none, some O, none, none, none, none] : Board), X, true⟩ : GameSt) := by
  have hprev : selfRun 1 = (⟨([some X, none, none, none, none, none, none, none, none] : Board), O, true⟩ : GameSt) := selfRunEq1
  have hstep : selfStep (⟨([some X, none, none, none, none, none, none, none, none] : Board), O, true⟩ : GameSt) = handleCellClick 3 (⟨([some X, none, none, none, none, none, none, none, none] : Board), O, true⟩ : GameSt) 4 :=
    selfStep_O rfl rfl selfSel2
  show selfStep (selfRun 1) = _
  rw [hprev, hstep]
  decide

theorem selfRunEq3 : selfRun 3 = (⟨([some X, some X, none, none, some O, none, none, none, none] : Board), O, true⟩ : GameSt) := by
  have hprev : selfRun 2 = (⟨([some X, none, none, none, some O, none, none, none, none] : Board), X, true⟩ : GameSt) := selfRunEq2
  have hstep : selfStep (⟨([some X, none, none, none, some O, none, none, none, none] : Board), X, true⟩ : GameSt) = handleCellClick 3 (⟨([some X, none, none, none, some O, none, none, none, none] : Board), X, true⟩ : GameSt) 1 :=
    selfStep_X rfl rfl selfSel3
  show selfStep (selfRun 2) = _
  rw [hprev, hstep]
  decide

theorem selfRunEq4 : selfRun 4 = (⟨([some X, some X, some O, none, some O, none, none, none, none] : Board), X, true⟩ : GameSt) := by
  have hprev : selfRun 3 = (⟨([some X, some X, none, none, some O, none, none, none, none] : Board), O, true⟩ : GameSt) := selfRunEq3
  have hstep : selfStep (⟨([some X, some X, none, none, some O, none, none, none, none] : Board), O, true⟩ : GameSt) = handleCellClick 3 (⟨([some X, some X, none, none, some O, none, none, none, none] : Board), O, true⟩ : GameSt) 2 :=
    selfStep_O rfl rfl selfSel4
  show selfStep (selfRun 3) = _
  rw [hprev, hstep]
  decide

theorem selfRunEq5 : selfRun 5 = (⟨([some X, some X, some O, none, some O, none, some X, none, none] : Board), O, true⟩ : GameSt) := by
  have hprev : selfRun 4 = (⟨([some X, some X, some O, none, some O, none, none, none, none] : Board), X, true⟩ : GameSt) := selfRunEq4
  have hstep : selfStep (⟨([some X, some X, some O, none, some O, none, none, none, none] : Board), X, true⟩ : GameSt) = handleCellClick 3 (⟨([some X, some X, some O, none, some O, none, none, none, none] : Board), X, true⟩ : GameSt) 6 :=
    selfStep_X rfl rfl selfSel5
  show selfStep (selfRun 4) = _
  rw [hprev, hstep]
  decide

theorem selfRunEq6 : selfRun 6 = (⟨([some X, some X, some O, some O, some O, none, some X, none, none] : Board), X, true⟩ : GameSt) := by
  have hprev : selfRun 5 = (⟨([some X, some X, some O, none, some O, none, some X, none, none] : Board), O, true⟩ : GameSt) := selfRunEq5
  have hstep : selfStep (⟨([some X, some X, some O, none, some O, none, some X, none, none] : Board), O, true⟩ : GameSt) = handleCellClick 3 (⟨([some X, some X, some O, none, some O, none, some X, none, none] : Board), O, true⟩ : GameSt) 3 :=
    selfStep_O rfl rfl selfSel6
  show selfStep (selfRun 5) = _
  rw [hprev, hstep]
  decide

theorem selfRunEq7 : selfRun 7 = (⟨([some X, some X, some O, some O, some O, some X, some X, none, none] : Board), O, true⟩ : GameSt) := by
  have hprev : selfRun 6 = (⟨([some X, some X, some O, some O, some O, none, some X, none, none] : Board), X, true⟩ : GameSt) := selfRunEq6
  have hstep : selfStep (⟨([some X, some X, some O, some O, some O, none, some X, none, none] : Board), X, true⟩ : GameSt) = handleCellClick 3 (⟨([some X, some X, some O, some O, some O, none, some X, none, none] : Board), X, true⟩ : GameSt) 5 :=
    selfStep_X rfl rfl selfSel7
  show selfStep (selfRun 6) = _
  rw [hprev, hstep]
  decide

theorem selfRunEq8 : selfRun 8 = (⟨([some X, some X, some O, some O, some O, some X, some X, some O, none] : Board), X, true⟩ : GameSt) := by
  have hprev : selfRun 7 = (⟨([some X, some X, some O, some O, some O, some X, some X, none, none] : Board), O, true⟩ : GameSt) := selfRunEq7
  have hstep : selfStep (⟨([some X, some X, some O, some O, some O, some X, some X, none, none] : Board), O, true⟩ : GameSt) = handleCellClick 3 (⟨([some X, some X, some O, some O, some O, some X, some X, none, none] : Board), O, true⟩ : GameSt) 7 :=
    selfStep_O rfl rfl selfSel8
  show selfStep (selfRun 7) = _
  rw [hprev, hstep]
  decide

theorem selfRunEq9 : selfRun 9 = (⟨([some X, some X, some O, some O, some O, some X, some X, some O, some X] : Board), X, false⟩ : GameSt) := by
  have hprev : selfRun 8 = (⟨([some X, some X, some O, some O, some O, some X, some X, some O, none] : Board), X, true⟩ : GameSt) := selfRunEq8
  have hstep : selfStep (⟨([some X, some X, some O, some O, some O, some X, some X, some O, none] : Board), X, true⟩ : GameSt) = handleCellClick 3 (⟨([some X, some X, some O, some O, some O, some X, some X, some O, none] : Board), X, true⟩ : GameSt) 8 :=
    selfStep_X rfl rfl selfSel9
  show selfStep (selfRun 8) = _
  rw [hprev, hstep]
  decide

end TTT

namespace TTT

open Player

/-! ## The mutate-and-restore discipline of the search -/

theorem jsSet_restore {b : Board} {i : Nat} (hib : i < b.length)
    (h : b.get? i = some none) (v : Option Player) :
    jsSet (jsSet b i v) i none = b := by
  rw [jsSet_inrange v hib, jsSet_inrange none (by simpa using hib)]
  rw [List.set_set]
  apply List.ext_get?
  intro n
  by_cases hn : i = n
  · subst hn
    rw [List.get?_set_eq_of_lt none hib, h]
  · rw [List.get?_set_ne none b hn]

theorem minimaxSt_winO {size : Nat} (fuel : Nat) (arr : Board) (depth : Nat)
    (isMax : Bool) (h : checkWinner arr size O = true) :
    minimaxSt size fuel arr depth isMax = (10 - (depth : Int), arr) := by
  rw [minimaxSt.eq_def]
  simp [h]

theorem minimaxSt_winX {size : Nat} (fuel : Nat) (arr : Board) (depth : Nat)
    (isMax : Bool) (h1 : checkWinner arr size O = false)
    (h2 : checkWinner arr size X = true) :
    minimaxSt size fuel arr depth isMax = ((depth : Int) - 10, arr) := by
  rw [minimaxSt.eq_def]
  simp [h1, h2]

theorem minimaxSt_full {size : Nat} (fuel : Nat) (arr : Board) (depth : Nat)
    (isMax : Bool) (h1 : checkWinner arr size O = false)
    (h2 : checkWinner arr size X = false) (h3 : isFull arr = true) :
    minimaxSt size fuel arr depth isMax = (0, arr) := by
  rw [minimaxSt.eq_def]
  simp [h1, h2, h3]

theorem minimaxSt_zero_nonterminal {size : Nat} (arr : Board) (depth : Nat)
    (isMax : Bool) (h1 : checkWinner arr size O = false)
    (h2 : checkWinner arr size X = false) (h3 : isFull arr = false) :
    minimaxSt size 0 arr depth isMax = (0, arr) := by
  rw [minimaxSt.eq_def]
  simp [h1, h2, h3]

theorem minimaxSt_max {size : Nat} (fuel : Nat) (arr : Board) (depth : Nat)
    (h1 : checkWinner arr size O = false) (h2 : checkWinner arr size X = false)
    (h3 : isFull arr = false) :
    minimaxSt size (fuel + 1) arr depth true =
      (((List.range arr.length).foldl (fun acc i =>
        if jsIsNull acc.2 i then
          (jmax acc.1 (minimaxSt size fuel (jsSet acc.2 i (some O)) (depth + 1) false).1,
            jsSet (minimaxSt size fuel (jsSet acc.2 i (some O)) (depth + 1) false).2 i none)
        else acc) (none, arr)).1.getD 0,
       ((List.range arr.length).foldl (fun acc i =>
        if jsIsNull acc.2 i then
          (jmax acc.1 (minimaxSt size fuel (jsSet acc.2 i (some O)) (depth + 1) false).1,
            jsSet (minimaxSt size fuel (jsSet acc.2 i (some O)) (depth + 1) false).2 i none)
        else acc) (none, arr)).2) := by
  conv_lhs => rw [minimaxSt.eq_def]
  simp [h1, h2, h3]

theorem minimaxSt_min {size : Nat} (fuel : Nat) (arr : Board) (depth : Nat)
    (h1 : checkWinner arr size O = false) (h2 : checkWinner arr size X = false)
    (h3 : isFull arr = false) :
    minimaxSt size (fuel + 1) arr depth false =
      (((List.range arr.length).foldl (fun acc i =>
        if jsIsNull acc.2 i then
          (jmin acc.1 (minimaxSt size fuel (jsSet acc.2 i (some X)) (depth + 1) true).1,
            jsSet (minimaxSt size fuel (jsSet acc.2 i (some X)) (depth + 1) true).2 i none)
        else acc) (none, arr)).1.getD 0,
       ((List.range arr.length).foldl (fun acc i =>
        if jsIsNull acc.2 i then
          (jmin acc.1 (minimaxSt size fuel (jsSet acc.2 i (some X)) (depth + 1) true).1,
            jsSet (minimaxSt size fuel (jsSet acc.2 i (some X)) (depth + 1) true).2 i none)
        else acc) (none, arr)).2) := by
  conv_lhs => rw [minimaxSt.eq_def]
  simp [h1, h2, h3]

theorem stFold_max {size fuel : Nat} {arr : Board} {depth : Nat}
    (IH : ∀ (a : Board) (d : Nat) (m : Bool),
      (minimaxSt size fuel a d m).2 = a ∧
      (minimaxSt size fuel a d m).1 = minimax size fuel a d m) :
    ∀ (l : List Nat) (acc : Option Int × Board), acc.2 = arr →
      (∀ i ∈ l, i < arr.length) →
      ((l.foldl (fun acc i =>
        if jsIsNull acc.2 i then
          (jmax acc.1 (minimaxSt size fuel (jsSet acc.2 i (some O)) (depth + 1) false).1,
            jsSet (minimaxSt size fuel (jsSet acc.2 i (some O)) (depth + 1) false).2 i none)
        else acc) acc).2 = arr ∧
      (l.foldl (fun acc i =>
        if jsIsNull acc.2 i then
          (jmax acc.1 (minimaxSt size fuel (jsSet acc.2 i (some O)) (depth + 1) false).1,
            jsSet (minimaxSt size fuel (jsSet acc.2 i (some O)) (depth + 1) false).2 i none)
        else acc) acc).1 =
      l.foldl (fun best i =>
        if jsIsNull arr i then
          jmax best (minimax size fuel (jsSet arr i (some O)) (depth + 1) false)
        else best) acc.1) := by
  intro l
  induction l with
  | nil => intro acc h2 _; exact ⟨h2, rfl⟩
  | cons h t ih =>
    intro acc h2 hbound
    by_cases hg : jsIsNull arr h = true
    · have hb : h < arr.length := hbound h (List.mem_cons_self h t)
      have hget : arr.get? h = some none := jsIsNull_eq_some hg
      obtain ⟨hrec2, hrec1⟩ := IH (jsSet arr h (some O)) (depth + 1) false
      have hrestore : jsSet (minimaxSt size fuel (jsSet arr h (some O))
          (depth + 1) false).2 h none = arr := by
        rw [hrec2]
        exact jsSet_restore hb hget (some O)
      simp only [List.foldl_cons, h2, hg, if_true]
      rw [hrec1]
      exact ih (jmax acc.1 (minimax size fuel (jsSet arr h (some O)) (depth + 1) false),
        jsSet (minimaxSt size fuel (jsSet arr h (some O)) (depth + 1) false).2 h none)
        hrestore (fun i hi => hbound i (List.mem_cons_of_mem h hi))
    · have hg2 : jsIsNull arr h = false := Bool.eq_false_iff.mpr hg
      simp only [List.foldl_cons, h2, hg2, if_false]
      exact ih acc h2 (fun i hi => hbound i (List.mem_cons_of_mem h hi))

theorem stFold_min {size fuel : Nat} {arr : Board} {depth : Nat}
    (IH : ∀ (a : Board) (d : Nat) (m : Bool),
      (minimaxSt size fuel a d m).2 = a ∧
      (minimaxSt size fuel a d m).1 = minimax size fuel a d m) :
    ∀ (l : List Nat) (acc : Option Int × Board), acc.2 = arr →
      (∀ i ∈ l, i < arr.length) →
      ((l.foldl (fun acc i =>
        if jsIsNull acc.2 i then
          (jmin acc.1 (minimaxSt size fuel (jsSet acc.2 i (some X)) (depth + 1) true).1,
            jsSet (minimaxSt size fuel (jsSet acc.2 i (some X)) (depth + 1) true).2 i none)
        else acc) acc).2 = arr ∧
      (l.foldl (fun acc i =>
        if jsIsNull acc.2 i then
          (jmin acc.1 (minimaxSt size fuel (jsSet acc.2 i (some X)) (depth + 1) true).1,
            jsSet (minimaxSt size fuel (jsSet acc.2 i (some X)) (depth + 1) true).2 i none)
        else acc) acc).1 =
      l.foldl (fun best i =>
        if jsIsNull arr i then
          jmin best (minimax size fuel (jsSet arr i (some X)) (depth + 1) true)
        else best) acc.1) := by
  intro l
  induction l with
  | nil => intro acc h2 _; exact ⟨h2, rfl⟩
  | cons h t ih =>
    intro acc h2 hbound
    by_cases hg : jsIsNull arr h = true
    · have hb : h < arr.length := hbound h (List.mem_cons_self h t)
      have hget : arr.get? h = some none := jsIsNull_eq_some hg
      obtain ⟨hrec2, hrec1⟩ := IH (jsSet arr h (some X)) (depth + 1) true
      have hrestore : jsSet (minimaxSt size fuel (jsSet arr h (some X))
          (depth + 1) true).2 h none = arr := by
        rw [hrec2]
        exact jsSet_restore hb hget (some X)
      simp only [List.foldl_cons, h2, hg, if_true]
      rw [hrec1]
      exact ih (jmin acc.1 (minimax size fuel (jsSet arr h (some X)) (depth + 1) true),
        jsSet (minimaxSt size fuel (jsSet arr h (some X)) (depth + 1) true).2 h none)
        hrestore (fun i hi => hbound i (List.mem_cons_of_mem h hi))
    · have hg2 : jsIsNull arr h = false := Bool.eq_false_iff.mpr hg
      simp only [List.foldl_cons, h2, hg2, if_false]
      exact ih acc h2 (fun i hi => hbound i (List.mem_cons_of_mem h hi))

theorem minimaxSt_spec {size : Nat} :
    ∀ (fuel : Nat) (arr : Board) (depth : Nat) (isMax : Bool),
      (minimaxSt size fuel arr depth isMax).2 = arr ∧
      (minimaxSt size fuel arr depth isMax).1 = minimax size fuel arr depth isMax := by
  intro fuel
  induction fuel with
  | zero =>
    intro arr depth isMax
    by_cases hO : checkWinner arr size O = true
    · rw [minimaxSt_winO 0 arr depth isMax hO, minimax_winO 0 arr depth isMax hO]
      exact ⟨rfl, rfl⟩
    · have hO' : checkWinner arr size O = false := Bool.eq_false_iff.mpr hO
      by_cases hX : checkWinner arr size X = true
      · rw [minimaxSt_winX 0 arr depth isMax hO' hX,
          minimax_winX 0 arr depth isMax hO' hX]
        exact ⟨rfl, rfl⟩
      · have hX' : checkWinner arr size X = false := Bool.eq_false_iff.mpr hX
        by_cases hF : isFull arr = true
        · rw [minimaxSt_full 0 arr depth isMax hO' hX' hF,
            minimax_full 0 arr depth isMax hO' hX' hF]
          exact ⟨rfl, rfl⟩
        · have hF' : isFull arr = false := Bool.eq_false_iff.mpr hF
          rw [minimaxSt_zero_nonterminal arr depth isMax hO' hX' hF',
            minimax_zero_nonterminal arr depth isMax hO' hX' hF']
          exact ⟨rfl, rfl⟩
  | succ f ih =>
    intro arr depth isMax
    by_cases hO : checkWinner arr size O = true
    · rw [minimaxSt_winO (f + 1) arr depth isMax hO,
        minimax_winO (f + 1) arr depth isMax hO]
      exact ⟨rfl, rfl⟩
    · have hO' : checkWinner arr size O = false := Bool.eq_false_iff.mpr hO
      by_cases hX : checkWinner arr size X = true
      · rw [minimaxSt_winX (f + 1) arr depth isMax hO' hX,
          minimax_winX (f + 1) arr depth isMax hO' hX]
        exact ⟨rfl, rfl⟩
      · have hX' : checkWinner arr size X = false := Bool.eq_false_iff.mpr hX
        by_cases hF : isFull arr = true
        · rw [minimaxSt_full (f + 1) arr depth isMax hO' hX' hF,
            minimax_full (f + 1) arr depth isMax hO' hX' hF]
          exact ⟨rfl, rfl⟩
        · have hF' : isFull arr = false := Bool.eq_false_iff.mpr hF
          cases isMax with
          | true =>
            rw [minimaxSt_max f arr depth hO' hX' hF',
              minimax_max f arr depth hO' hX' hF']
            obtain ⟨hh2, hh1⟩ := stFold_max ih (List.range arr.length)
              (none, arr) rfl (fun i hi => List.mem_range.mp hi)
            exact ⟨hh2, by rw [hh1]⟩
          | false =>
            rw [minimaxSt_min f arr depth hO' hX' hF',
              minimax_min f arr depth hO' hX' hF']
            obtain ⟨hh2, hh1⟩ := stFold_min ih (List.range arr.length)
              (none, arr) rfl (fun i hi => List.mem_range.mp hi)
            exact ⟨hh2, by rw [hh1]⟩

end TTT

namespace TTT

open Player

/-! ## Full boards, `find?` over index ranges, and the selectors -/

theorem jsIsNull_oor {b : Board} {i : Nat} (h : b.length ≤ i) :
    jsIsNull b i = false := by
  unfold jsIsNull
  rw [List.get?_eq_none.mpr h]
  rfl

theorem isFull_iff_no_null {b : Board} :
    isFull b = true ↔ ∀ i, i < b.length → jsIsNull b i = false := by
  constructor
  · intro h i hi
    unfold isFull at h
    rw [List.all_eq_true] at h
    have hget : b.get? i = some (b.get ⟨i, hi⟩) := List.get?_eq_get hi
    have hsome := h (b.get ⟨i, hi⟩) (List.get_mem b i hi)
    unfold jsIsNull
    rw [hget]
    cases hc : b.get ⟨i, hi⟩ with
    | none => rw [hc] at hsome; cases hsome
    | some p => rfl
  · intro h
    by_contra hf
    have hf' : isFull b = false := Bool.eq_false_iff.mpr hf
    obtain ⟨i, hi, hnull⟩ := notFull_exists_empty hf'
    have := h i hi
    rw [hnull] at this
    cases this

theorem findRange_intro {n : Nat} {p : Nat → Bool} {i : Nat}
    (hi : i < n) (hp : p i = true) (hleast : ∀ k, k < i → p k = false) :
    (List.range n).find? p = some i := by
  cases h : (List.range n).find? p with
  | none =>
    have := findRange_none.mp h i hi
    rw [hp] at this
    cases this
  | some j =>
    obtain ⟨hj, hpj, hleastj⟩ := findRange_some h
    rcases lt_trichotomy i j with h1 | h2 | h3
    · have := hleastj i h1
      rw [hp] at this
      cases this
    · rw [h2]
    · have := hleast j h3
      rw [hpj] at this
      cases this

theorem getRandomMove_none {b : Board} {rand : Nat} :
    getRandomMove b rand = none ↔ isFull b = true := by
  unfold getRandomMove
  simp only []
  by_cases hlen : ((List.range b.length).filter fun i => jsIsNull b i).length = 0
  · rw [if_pos hlen]
    have hfull : isFull b = true := by
      rw [isFull_iff_no_null]
      intro i hi
      cases hc : jsIsNull b i with
      | false => rfl
      | true =>
        exfalso
        have hmem : i ∈ (List.range b.length).filter fun i => jsIsNull b i :=
          List.mem_filter.mpr ⟨List.mem_range.mpr hi, hc⟩
        rw [List.length_eq_zero] at hlen
        rw [hlen] at hmem
        cases hmem
    simp [hfull]
  · rw [if_neg hlen]
    have hlt : rand % ((List.range b.length).filter fun i => jsIsNull b i).length <
        ((List.range b.length).filter fun i => jsIsNull b i).length :=
      Nat.mod_lt _ (Nat.pos_of_ne_zero hlen)
    constructor
    · intro h
      rw [List.get?_eq_get hlt] at h
      cases h
    · intro h
      exfalso
      obtain ⟨i, hmemf⟩ :=
        List.exists_mem_of_length_pos (Nat.pos_of_ne_zero hlen)
      have hmem := List.mem_filter.mp hmemf
      have := isFull_iff_no_null.mp h i (List.mem_range.mp hmem.1)
      rw [hmem.2] at this
      cases this

theorem getRandomMove_mem {b : Board} {rand i : Nat}
    (h : getRandomMove b rand = some i) :
    i < b.length ∧ b.get? i = some none := by
  unfold getRandomMove at h
  simp only [] at h
  by_cases hlen : ((List.range b.length).filter fun i => jsIsNull b i).length = 0
  · rw [if_pos hlen] at h
    cases h
  · rw [if_neg hlen] at h
    have hmemf : i ∈ (List.range b.length).filter fun i => jsIsNull b i :=
      List.get?_mem h
    have hmem := List.mem_filter.mp hmemf
    exact ⟨List.mem_range.mp hmem.1, jsIsNull_eq_some hmem.2⟩

theorem getMediumMove_win {size : Nat} {b : Board} {rand i : Nat}
    (hi : i < b.length) (hnull : jsIsNull b i = true)
    (hwin : checkWinner (jsSet b i (some O)) size O = true)
    (hleast : ∀ k, k < i →
      (jsIsNull b k && checkWinner (jsSet b k (some O)) size O) = false) :
    getMediumMove size b rand = some i := by
  unfold getMediumMove
  rw [findRange_intro hi (by rw [hnull, hwin]; rfl) hleast]

theorem getMediumMove_block {size : Nat} {b : Board} {rand i : Nat}
    (hnowin : ∀ k, k < b.length →
      (jsIsNull b k && checkWinner (jsSet b k (some O)) size O) = false)
    (hi : i < b.length) (hnull : jsIsNull b i = true)
    (hblock : checkWinner (jsSet b i (some X)) size X = true)
    (hleast : ∀ k, k < i →
      (jsIsNull b k && checkWinner (jsSet b k (some X)) size X) = false) :
    getMediumMove size b rand = some i := by
  unfold getMediumMove
  rw [findRange_none.mpr hnowin,
    findRange_intro hi (by rw [hnull, hblock]; rfl) hleast]

theorem getMediumMove_center {size : Nat} {b : Board} {rand : Nat}
    (hnowin : ∀ k, k < b.length →
      (jsIsNull b k && checkWinner (jsSet b k (some O)) size O) = false)
    (hnoblock : ∀ k, k < b.length →
      (jsIsNull b k && checkWinner (jsSet b k (some X)) size X) = false)
    (hcenter : jsIsNull b (size * size / 2) = true) :
    getMediumMove size b rand = some (size * size / 2) := by
  unfold getMediumMove
  rw [findRange_none.mpr hnowin, findRange_none.mpr hnoblock, if_pos hcenter]

theorem getMediumMove_random {size : Nat} {b : Board} {rand : Nat}
    (hnowin : ∀ k, k < b.length →
      (jsIsNull b k && checkWinner (jsSet b k (some O)) size O) = false)
    (hnoblock : ∀ k, k < b.length →
      (jsIsNull b k && checkWinner (jsSet b k (some X)) size X) = false)
    (hcenter : jsIsNull b (size * size / 2) = false) :
    getMediumMove size b rand = getRandomMove b rand := by
  unfold getMediumMove
  rw [findRange_none.mpr hnowin, findRange_none.mpr hnoblock,
    if_neg (by rw [hcenter]; exact Bool.false_ne_true)]

theorem getMediumMove_none {size : Nat} {b : Board} {rand : Nat} :
    getMediumMove size b rand = none ↔ isFull b = true := by
  constructor
  · intro h
    by_contra hf
    have hf' : isFull b = false := Bool.eq_false_iff.mpr hf
    unfold getMediumMove at h
    cases h1 : (List.range b.length).find? fun i =>
        jsIsNull b i && checkWinner (jsSet b i (some O)) size O with
    | some j => rw [h1] at h; cases h
    | none =>
      rw [h1] at h
      cases h2 : (List.range b.length).find? fun i =>
          jsIsNull b i && checkWinner (jsSet b i (some X)) size X with
      | some j => rw [h2] at h; cases h
      | none =>
        rw [h2] at h
        by_cases hc : jsIsNull b (size * size / 2) = true
        · rw [if_pos hc] at h
          cases h
        · rw [if_neg hc] at h
          rw [getRandomMove_none] at h
          exact hf h
  · intro h
    have hnull : ∀ k, k < b.length → jsIsNull b k = false :=
      isFull_iff_no_null.mp h
    have hnullall : ∀ k, jsIsNull b k = false := by
      intro k
      by_cases hk : k < b.length
      · exact hnull k hk
      · exact jsIsNull_oor (Nat.le_of_not_lt hk)
    unfold getMediumMove
    rw [findRange_none.mpr (fun k _ => by rw [hnullall k]; rfl),
      findRange_none.mpr (fun k _ => by rw [hnullall k]; rfl),
      if_neg (by rw [hnullall (size * size / 2)]; exact Bool.false_ne_true)]
    rw [getRandomMove_none]
    exact h

theorem getMediumMove_mem {size : Nat} {b : Board} {rand i : Nat}
    (h : getMediumMove size b rand = some i) :
    i < b.length ∧ b.get? i = some none := by
  unfold getMediumMove at h
  cases h1 : (List.range b.length).find? fun i =>
      jsIsNull b i && checkWinner (jsSet b i (some O)) size O with
  | some j =>
    rw [h1] at h
    have hji : j = i := by simpa using h
    obtain ⟨hj, hpj, _⟩ := findRange_some h1
    rw [Bool.and_eq_true] at hpj
    subst hji
    exact ⟨hj, jsIsNull_eq_some hpj.1⟩
  | none =>
    rw [h1] at h
    cases h2 : (List.range b.length).find? fun i =>
        jsIsNull b i && checkWinner (jsSet b i (some X)) size X with
    | some j =>
      rw [h2] at h
      have hji : j = i := by simpa using h
      obtain ⟨hj, hpj, _⟩ := findRange_some h2
      rw [Bool.and_eq_true] at hpj
      subst hji
      exact ⟨hj, jsIsNull_eq_some hpj.1⟩
    | none =>
      rw [h2] at h
      by_cases hc : jsIsNull b (size * size / 2) = true
      · rw [if_pos hc] at h
        have hci : size * size / 2 = i := by simpa using h
        subst hci
        exact ⟨jsIsNull_lt_length hc, jsIsNull_eq_some hc⟩
      · rw [if_neg hc] at h
        exact getRandomMove_mem h

end TTT

namespace TTT

open Player

/-! ## Invariants of click-reachable states -/

theorem reach_inv {size : Nat} {s : GameSt} (h : Reach size s) :
    s.board.length = size * size ∧
    (s.gameActive = true →
      checkWinner s.board size X = false ∧ checkWinner s.board size O = false) ∧
    ¬(checkWinner s.board size X = true ∧ checkWinner s.board size O = true) := by
  induction h with
  | init =>
    refine ⟨List.length_replicate (size * size) none,
      fun _ => ⟨checkWinner_replicate (size * size) size X,
        checkWinner_replicate (size * size) size O⟩, ?_⟩
    intro hb
    rw [checkWinner_replicate (size * size) size X] at hb
    cases hb.1
  | @step s i hr hi ih =>
    obtain ⟨hlen, hact, hboth⟩ := ih
    have hsize : 1 ≤ size := by
      rcases Nat.eq_zero_or_pos size with h0 | h1
      · subst h0
        simp at hi
      · exact h1
    by_cases hA : s.gameActive = true
    · by_cases hE : (jsGet s.board i).isSome = true
      · rw [handleCellClick_occupied hE]
        exact ⟨hlen, hact, hboth⟩
      · have hE' : (jsGet s.board i).isSome = false := Bool.eq_false_iff.mpr hE
        obtain ⟨hnX, hnO⟩ := hact hA
        have hib : i < s.board.length := by rw [hlen]; exact hi
        have hnew : ∀ q : Player, q ≠ s.currentPlayer →
            checkWinner (jsSet s.board i (some s.currentPlayer)) size q = false := by
          intro q hq
          cases hc : checkWinner (jsSet s.board i (some s.currentPlayer)) size q with
          | false => rfl
          | true =>
            exfalso
            have hold := checkWinner_jsSet_other hsize hib (Ne.symm hq) hc
            cases q with
            | X => rw [hnX] at hold; cases hold
            | O => rw [hnO] at hold; cases hold
        have hlen' : (jsSet s.board i (some s.currentPlayer)).length = size * size := by
          rw [length_jsSet_inrange _ hib]
          exact hlen
        by_cases hw : checkWinner (jsSet s.board i (some s.currentPlayer)) size
            s.currentPlayer = true
        · rw [handleCellClick_win hA hE' hw]
          refine ⟨hlen', fun hcon => by simp at hcon, ?_⟩
          rintro ⟨h1, h2⟩
          cases hcp : s.currentPlayer with
          | X =>
            have hq : (O : Player) ≠ s.currentPlayer := by rw [hcp]; decide
            have hh := hnew O hq
            rw [hh] at h2
            cases h2
          | O =>
            have hq : (X : Player) ≠ s.currentPlayer := by rw [hcp]; decide
            have hh := hnew X hq
            rw [hh] at h1
            cases h1
        · have hw' : checkWinner (jsSet s.board i (some s.currentPlayer)) size
              s.currentPlayer = false := Bool.eq_false_iff.mpr hw
          have hXf : checkWinner (jsSet s.board i (some s.currentPlayer)) size X
              = false := by
            cases hcp : s.currentPlayer with
            | X => rw [← hcp]; exact hw'
            | O =>
              have hq : (X : Player) ≠ s.currentPlayer := by rw [hcp]; decide
              have hh := hnew X hq
              rw [hcp] at hh
              exact hh
          have hOf : checkWinner (jsSet s.board i (some s.currentPlayer)) size O
              = false := by
            cases hcp : s.currentPlayer with
            | O => rw [← hcp]; exact hw'
            | X =>
              have hq : (O : Player) ≠ s.currentPlayer := by rw [hcp]; decide
              have hh := hnew O hq
              rw [hcp] at hh
              exact hh
          by_cases hd : isDraw (jsSet s.board i (some s.currentPlayer)) size = true
          · rw [handleCellClick_draw hA hE' hw' hd]
            refine ⟨hlen', fun hcon => by simp at hcon, ?_⟩
            rintro ⟨h1, _⟩
            rw [hXf] at h1
            cases h1
          · have hd' : isDraw (jsSet s.board i (some s.currentPlayer)) size = false :=
              Bool.eq_false_iff.mpr hd
            rw [handleCellClick_next hA hE' hw' hd']
            refine ⟨hlen', fun _ => ⟨hXf, hOf⟩, ?_⟩
            rintro ⟨h1, _⟩
            rw [hXf] at h1
            cases h1
    · rw [handleCellClick_inactive (Bool.eq_false_iff.mpr hA)]
      exact ⟨hlen, hact, hboth⟩

end TTT

namespace TTT

open Player

/-! ## Bounds and attainment at non-terminal search nodes -/

theorem jsIsNull_of_eq_some {b : Board} {i : Nat} (h : b.get? i = some none) :
    jsIsNull b i = true := by
  unfold jsIsNull
  rw [h]
  rfl

theorem minimax_max_node {size fuel : Nat} {arr : Board} {depth : Nat}
    (h1 : checkWinner arr size O = false) (h2 : checkWinner arr size X = false)
    (h3 : isFull arr = false) :
    (∀ i, i < arr.length → jsIsNull arr i = true →
      minimax size fuel (jsSet arr i (some O)) (depth + 1) false ≤
        minimax size (fuel + 1) arr depth true) ∧
    (∃ i, i < arr.length ∧ jsIsNull arr i = true ∧
      minimax size (fuel + 1) arr depth true =
        minimax size fuel (jsSet arr i (some O)) (depth + 1) false) := by
  obtain ⟨i0, hi0, hn0⟩ := notFull_exists_empty h3
  have hbig : ∃ w, (List.range arr.length).foldl (fun best i =>
      if jsIsNull arr i then
        jmax best (minimax size fuel (jsSet arr i (some O)) (depth + 1) false)
      else best) none = some w ∧
      minimax size fuel (jsSet arr i0 (some O)) (depth + 1) false ≤ w :=
    jmax_mem_ge (List.range arr.length) i0 none (List.mem_range.mpr hi0) hn0
  obtain ⟨w, hw, _⟩ := hbig
  have hval : minimax size (fuel + 1) arr depth true = w := by
    rw [minimax_max fuel arr depth h1 h2 h3, hw]
    rfl
  constructor
  · intro i hi hni
    have hbi : ∃ w2, (List.range arr.length).foldl (fun best i =>
        if jsIsNull arr i then
          jmax best (minimax size fuel (jsSet arr i (some O)) (depth + 1) false)
        else best) none = some w2 ∧
        minimax size fuel (jsSet arr i (some O)) (depth + 1) false ≤ w2 :=
      jmax_mem_ge (List.range arr.length) i none (List.mem_range.mpr hi) hni
    obtain ⟨w2, hw2, hle2⟩ := hbi
    rw [hw] at hw2
    injection hw2 with hww
    rw [hval, hww]
    exact hle2
  · have hatt := jmax_attain (List.range arr.length) none w hw
    rcases hatt with hacc | ⟨j, hj, hgj, hfj⟩
    · cases hacc
    · exact ⟨j, List.mem_range.mp hj, hgj, by rw [hval, ← hfj]⟩

theorem minimax_min_node {size fuel : Nat} {arr : Board} {depth : Nat}
    (h1 : checkWinner arr size O = false) (h2 : checkWinner arr size X = false)
    (h3 : isFull arr = false) :
    (∀ i, i < arr.length → jsIsNull arr i = true →
      minimax size (fuel + 1) arr depth false ≤
        minimax size fuel (jsSet arr i (some X)) (depth + 1) true) ∧
    (∃ i, i < arr.length ∧ jsIsNull arr i = true ∧
      minimax size (fuel + 1) arr depth false =
        minimax size fuel (jsSet arr i (some X)) (depth + 1) true) := by
  obtain ⟨i0, hi0, hn0⟩ := notFull_exists_empty h3
  have hbig : ∃ w, (List.range arr.length).foldl (fun best i =>
      if jsIsNull arr i then
        jmin best (minimax size fuel (jsSet arr i (some X)) (depth + 1) true)
      else best) none = some w ∧
      w ≤ minimax size fuel (jsSet arr i0 (some X)) (depth + 1) true :=
    jmin_mem_le (List.range arr.length) i0 none (List.mem_range.mpr hi0) hn0
  obtain ⟨w, hw, _⟩ := hbig
  have hval : minimax size (fuel + 1) arr depth false = w := by
    rw [minimax_min fuel arr depth h1 h2 h3, hw]
    rfl
  constructor
  · intro i hi hni
    have hbi : ∃ w2, (List.range arr.length).foldl (fun best i =>
        if jsIsNull arr i then
          jmin best (minimax size fuel (jsSet arr i (some X)) (depth + 1) true)
        else best) none = some w2 ∧
        w2 ≤ minimax size fuel (jsSet arr i (some X)) (depth + 1) true :=
      jmin_mem_le (List.range arr.length) i none (List.mem_range.mpr hi) hni
    obtain ⟨w2, hw2, hle2⟩ := hbi
    rw [hw] at hw2
    injection hw2 with hww
    rw [hval, hww]
    exact hle2
  · have hatt := jmin_attain (List.range arr.length) none w hw
    rcases hatt with hacc | ⟨j, hj, hgj, hfj⟩
    · cases hacc
    · exact ⟨j, List.mem_range.mp hj, hgj, by rw [hval, ← hfj]⟩

end TTT

namespace TTT

open Player

/-! ## The claims -/

theorem scanPred_false {b : Board} {size : Nat} {p : Player} {k : Nat}
    (h : ¬(b.get? k = some none ∧ checkWinner (jsSet b k (some p)) size p = true)) :
    (jsIsNull b k && checkWinner (jsSet b k (some p)) size p) = false := by
  cases hn : jsIsNull b k with
  | false => rfl
  | true =>
    have hg := jsIsNull_eq_some hn
    cases hc : checkWinner (jsSet b k (some p)) size p with
    | false => rfl
    | true => exact absurd ⟨hg, hc⟩ h

/-- C1: the spec says an out-of-range, occupied-cell or terminal-board call
to the click handler fails with a typed error and never mutates the board.
The source disagrees twice over: the occupied-cell and terminal-board cases
return silently with no error of any kind, and an out-of-range click on an
active board does mutate the board — the JS write `newBoard[idx] = player`
extends the array past its end.  `c1_counterexample` exhibits the mutation;
this amended statement is what the code actually does: a click on a finished
game or an occupied cell is a silent no-op, and an out-of-range click on an
active board grows the board to length `idx + 1`. -/
theorem c1_applyMove_amended :
    (∀ (size : Nat) (s : GameSt) (idx : Nat), s.gameActive = false →
      handleCellClick size s idx = s) ∧
    (∀ (size : Nat) (s : GameSt) (idx : Nat), (jsGet s.board idx).isSome = true →
      handleCellClick size s idx = s) ∧
    (∀ (size : Nat) (s : GameSt) (idx : Nat), s.gameActive = true →
      s.board.length ≤ idx → (handleCellClick size s idx).board.length = idx + 1) := by
  refine ⟨fun size s idx h => handleCellClick_inactive h,
    fun size s idx h => handleCellClick_occupied h, ?_⟩
  intro size s idx ha hle
  have hjs : (jsGet s.board idx).isSome = false := by
    rw [jsGet_eq_get?, List.get?_eq_none.mpr hle]
    rfl
  have hlenb : (jsSet s.board idx (some s.currentPlayer)).length = idx + 1 := by
    unfold jsSet
    rw [if_neg (Nat.not_lt.mpr hle)]
    rw [List.length_append, List.length_append, List.length_replicate,
      List.length_singleton]
    omega
  by_cases hw : checkWinner (jsSet s.board idx (some s.currentPlayer)) size
      s.currentPlayer = true
  · rw [handleCellClick_win ha hjs hw]
    exact hlenb
  · have hw' := Bool.eq_false_iff.mpr hw
    by_cases hd : isDraw (jsSet s.board idx (some s.currentPlayer)) size = true
    · rw [handleCellClick_draw ha hjs hw' hd]
      exact hlenb
    · rw [handleCellClick_next ha hjs hw' (Bool.eq_false_iff.mpr hd)]
      exact hlenb

/-- C1 counterexample: an out-of-range click (index 9 on the fresh 3×3
board) is accepted, mutates the board and grows it to length 10 — no error
is raised and the board is not left unchanged, refuting the claimed error
behaviour. -/
theorem c1_counterexample :
    (handleCellClick 3 initSt 9).board ≠ initSt.board ∧
    (handleCellClick 3 initSt 9).board.length = 10 := by
  decide

theorem c1_witness :
    handleCellClick 3 ⟨[some X], O, false⟩ 0 = ⟨[some X], O, false⟩ ∧
    handleCellClick 3 ⟨[some X], O, true⟩ 0 = ⟨[some X], O, true⟩ ∧
    (handleCellClick 3 ⟨[some X], O, true⟩ 5).board.length = 6 :=
  ⟨c1_applyMove_amended.1 3 ⟨[some X], O, false⟩ 0 rfl,
    c1_applyMove_amended.2.1 3 ⟨[some X], O, true⟩ 0 (by decide),
    c1_applyMove_amended.2.2 3 ⟨[some X], O, true⟩ 5 rfl (by decide)⟩

/-- C2: playing the hard AI as `O` against any legal sequence of `X` clicks
from the fresh 3×3 board never produces a winning line for `X`; whenever the
game has ended, `O` has won or the position is a draw. -/
theorem c2_hard_never_loses : ∀ xs : List Nat, (∀ i ∈ xs, i < 9) →
    checkWinner (hardRun initSt xs).board 3 X = false ∧
    ((hardRun initSt xs).gameActive = false →
      checkWinner (hardRun initSt xs).board 3 O = true ∨
        isDraw (hardRun initSt xs).board 3 = true) := by
  intro xs hxs
  have h := hardRun_inv xs initSt hardInv_init hxs
  exact ⟨h.2.1, h.2.2.2⟩

theorem c2_witness :
    (∀ i ∈ ([4, 0] : List Nat), i < 9) ∧
    (checkWinner (hardRun initSt [4, 0]).board 3 X = false ∧
      ((hardRun initSt [4, 0]).gameActive = false →
        checkWinner (hardRun initSt [4, 0]).board 3 O = true ∨
          isDraw (hardRun initSt [4, 0]).board 3 = true)) :=
  ⟨by decide, c2_hard_never_loses [4, 0] (by decide)⟩

/-- C3: the minimax evaluation scores a position with an `O` line as
`10 − depth`, one with an `X` line as `depth − 10`, and a full drawn board
as `0`; at a non-terminal node the value with `O` to move is the maximum of
the one-ply continuations and with `X` to move the minimum (bounds plus
attainment below); and the hard selector returns an in-range empty index
whose one-ply simulation attains the maximum minimax value among all empty
cells, every strictly smaller index being strictly worse (lowest index wins
ties); on any board with an empty cell it does return an index. -/
theorem c3_minimax_selector :
    (∀ (size fuel : Nat) (arr : Board) (depth : Nat) (isMax : Bool),
      (checkWinner arr size O = true →
        minimax size fuel arr depth isMax = 10 - (depth : Int)) ∧
      (checkWinner arr size O = false → checkWinner arr size X = true →
        minimax size fuel arr depth isMax = (depth : Int) - 10) ∧
      (checkWinner arr size O = false → checkWinner arr size X = false →
        isFull arr = true → minimax size fuel arr depth isMax = 0)) ∧
    (∀ (size fuel : Nat) (arr : Board) (depth : Nat),
      checkWinner arr size O = false → checkWinner arr size X = false →
      isFull arr = false →
      ((∀ i, i < arr.length → jsIsNull arr i = true →
          minimax size fuel (jsSet arr i (some O)) (depth + 1) false ≤
            minimax size (fuel + 1) arr depth true) ∧
        (∃ i, i < arr.length ∧ jsIsNull arr i = true ∧
          minimax size (fuel + 1) arr depth true =
            minimax size fuel (jsSet arr i (some O)) (depth + 1) false) ∧
        (∀ i, i < arr.length → jsIsNull arr i = true →
          minimax size (fuel + 1) arr depth false ≤
            minimax size fuel (jsSet arr i (some X)) (depth + 1) true) ∧
        (∃ i, i < arr.length ∧ jsIsNull arr i = true ∧
          minimax size (fuel + 1) arr depth false =
            minimax size fuel (jsSet arr i (some X)) (depth + 1) true))) ∧
    (∀ (fuel size : Nat) (b : Board) (j : Nat), getBestMove fuel size b = some j →
      j < b.length ∧ jsIsNull b j = true ∧
        (∀ i, i < b.length → jsIsNull b i = true →
          minimax size fuel (jsSet b i (some O)) 0 false ≤
            minimax size fuel (jsSet b j (some O)) 0 false) ∧
        (∀ i, i < j → jsIsNull b i = true →
          minimax size fuel (jsSet b i (some O)) 0 false <
            minimax size fuel (jsSet b j (some O)) 0 false)) ∧
    (∀ (fuel size : Nat) (b : Board), isFull b = false →
      ∃ j, getBestMove fuel size b = some j) := by
  refine ⟨?_, ?_, ?_, ?_⟩
  · intro size fuel arr depth isMax
    exact ⟨fun h => minimax_winO fuel arr depth isMax h,
      fun h1 h2 => minimax_winX fuel arr depth isMax h1 h2,
      fun h1 h2 h3 => minimax_full fuel arr depth isMax h1 h2 h3⟩
  · intro size fuel arr depth h1 h2 h3
    exact ⟨(minimax_max_node h1 h2 h3).1, (minimax_max_node h1 h2 h3).2,
      (minimax_min_node h1 h2 h3).1, (minimax_min_node h1 h2 h3).2⟩
  · intro fuel size b j h
    exact getBestMove_some h
  · intro fuel size b hf
    cases h : getBestMove fuel size b with
    | none =>
      exfalso
      obtain ⟨i, hi, hnull⟩ := notFull_exists_empty hf
      have hn := getBestMove_none.mp h i hi
      rw [hnull] at hn
      cases hn
    | some j => exact ⟨j, rfl⟩

theorem c3_witness :
    checkWinner ([some O, some O, some O, none, none, none, none, none, none]) 3 O
      = true ∧
    minimax 3 2 ([some O, some O, some O, none, none, none, none, none, none]) 1 true
      = 10 - (1 : Int) :=
  ⟨by decide,
    (c3_minimax_selector.1 3 2
      [some O, some O, some O, none, none, none, none, none, none] 1 true).1
      (by decide)⟩

/-- C4: for a positive side length, the winner check reports `p` exactly when
one of the `2·size + 2` candidate lines — one of the `size` rows, one of the
`size` columns, the main diagonal, or the anti-diagonal — has all `size` of
its cells holding `p`'s mark. -/
theorem c4_checkWinner_lines : ∀ (arr : Board) (size : Nat) (p : Player),
    1 ≤ size →
    (checkWinner arr size p = true ↔
      (∃ r, r < size ∧ ∀ i, i < size → jsGet arr (r * size + i * 1) = some p) ∨
      (∃ c, c < size ∧ ∀ i, i < size → jsGet arr (c + i * size) = some p) ∨
      (∀ i, i < size → jsGet arr (0 + i * (size + 1)) = some p) ∨
      (∀ i, i < size → jsGet arr ((size - 1) + i * (size - 1)) = some p)) :=
  fun _ _ _ h => checkWinner_iff h

theorem c4_witness :
    1 ≤ 3 ∧
    (checkWinner ([some X, some X, some X, none, none, none, none, none, none]) 3 X
        = true ↔
      (∃ r, r < 3 ∧ ∀ i, i < 3 →
        jsGet ([some X, some X, some X, none, none, none, none, none, none])
          (r * 3 + i * 1) = some X) ∨
      (∃ c, c < 3 ∧ ∀ i, i < 3 →
        jsGet ([some X, some X, some X, none, none, none, none, none, none])
          (c + i * 3) = some X) ∨
      (∀ i, i < 3 →
        jsGet ([some X, some X, some X, none, none, none, none, none, none])
          (0 + i * (3 + 1)) = some X) ∨
      (∀ i, i < 3 →
        jsGet ([some X, some X, some X, none, none, none, none, none, none])
          ((3 - 1) + i * (3 - 1)) = some X)) :=
  ⟨by decide,
    c4_checkWinner_lines [some X, some X, some X, none, none, none, none, none, none]
      3 X (by decide)⟩

/-- C5: the medium selector follows the fixed priority chain of the spec:
the least empty index completing an `O` line if one exists, else the least
empty index completing an `X` line (block), else the centre `size²/2` if
empty, else the random selector's pick, which is always an empty in-range
index; and on `[O,O,_,X,X,_,_,_,_]` it plays 2 (the win) while on
`[X,X,_,_,_,_,_,_,_]` it plays 2 (the block), whatever the random draw. -/
theorem c5_medium_priority :
    (∀ (size : Nat) (b : Board) (rand i : Nat),
      i < b.length → b.get? i = some none →
      checkWinner (jsSet b i (some O)) size O = true →
      (∀ k, k < i → ¬(b.get? k = some none ∧
        checkWinner (jsSet b k (some O)) size O = true)) →
      getMediumMove size b rand = some i) ∧
    (∀ (size : Nat) (b : Board) (rand i : Nat),
      (∀ k, k < b.length → ¬(b.get? k = some none ∧
        checkWinner (jsSet b k (some O)) size O = true)) →
      i < b.length → b.get? i = some none →
      checkWinner (jsSet b i (some X)) size X = true →
      (∀ k, k < i → ¬(b.get? k = some none ∧
        checkWinner (jsSet b k (some X)) size X = true)) →
      getMediumMove size b rand = some i) ∧
    (∀ (size : Nat) (b : Board) (rand : Nat),
      (∀ k, k < b.length → ¬(b.get? k = some none ∧
        checkWinner (jsSet b k (some O)) size O = true)) →
      (∀ k, k < b.length → ¬(b.get? k = some none ∧
        checkWinner (jsSet b k (some X)) size X = true)) →
      b.get? (size * size / 2) = some none →
      getMediumMove size b rand = some (size * size / 2)) ∧
    (∀ (size : Nat) (b : Board) (rand : Nat),
      (∀ k, k < b.length → ¬(b.get? k = some none ∧
        checkWinner (jsSet b k (some O)) size O = true)) →
      (∀ k, k < b.length → ¬(b.get? k = some none ∧
        checkWinner (jsSet b k (some X)) size X = true)) →
      b.get? (size * size / 2) ≠ some none →
      getMediumMove size b rand = getRandomMove b rand ∧
        ∀ j, getRandomMove b rand = some j → j < b.length ∧ b.get? j = some none) ∧
    (∀ rand : Nat, getMediumMove 3
      ([some O, some O, none, some X, some X, none, none, none, none]) rand
        = some 2) ∧
    (∀ rand : Nat, getMediumMove 3
      ([some X, some X, none, none, none, none, none, none, none]) rand
        = some 2) := by
  refine ⟨?_, ?_, ?_, ?_, ?_, ?_⟩
  · intro size b rand i hi hg hw hleast
    exact getMediumMove_win hi (jsIsNull_of_eq_some hg) hw
      (fun k hk => scanPred_false (hleast k hk))
  · intro size b rand i hnowin hi hg hw hleast
    exact getMediumMove_block (fun k hk => scanPred_false (hnowin k hk)) hi
      (jsIsNull_of_eq_some hg) hw (fun k hk => scanPred_false (hleast k hk))
  · intro size b rand hnowin hnoblock hc
    exact getMediumMove_center (fun k hk => scanPred_false (hnowin k hk))
      (fun k hk => scanPred_false (hnoblock k hk)) (jsIsNull_of_eq_some hc)
  · intro size b rand hnowin hnoblock hc
    have hcf : jsIsNull b (size * size / 2) = false := by
      cases hn : jsIsNull b (size * size / 2) with
      | false => rfl
      | true => exact absurd (jsIsNull_eq_some hn) hc
    exact ⟨getMediumMove_random (fun k hk => scanPred_false (hnowin k hk))
      (fun k hk => scanPred_false (hnoblock k hk)) hcf,
      fun j hj => getRandomMove_mem hj⟩
  · intro rand
    rfl
  · intro rand
    rfl

theorem c5_witness :
    (2 < ([some O, some O, none, some X, some X, none, none, none, none] :
      Board).length) ∧
    getMediumMove 3 ([some O, some O, none, some X, some X, none, none, none, none])
      7 = some 2 :=
  ⟨by decide,
    c5_medium_priority.1 3
      [some O, some O, none, some X, some X, none, none, none, none] 7 2
      (by decide) (by decide) (by decide) (by decide)⟩

/-- C6: minimax-vs-minimax self play on the 3×3 board ends in a draw: after
nine selected moves the game is over, the final board is a draw, and every
longer self-play run is stationary at that drawn position.  The source only
instantiates the hard selector for the `O` side, so the `X` side plays the
spec-modelled mirror instance `getBestMoveX`. -/
theorem c6_selfplay_draw :
    (selfRun 9).gameActive = false ∧ isDraw (selfRun 9).board 3 = true ∧
    ∀ n, 9 ≤ n → selfRun n = selfRun 9 := by
  have h9 := selfRunEq9
  have hstat : ∀ k, selfRun (9 + k) = selfRun 9 := by
    intro k
    induction k with
    | zero => rfl
    | succ m ih =>
      show selfStep (selfRun (9 + m)) = selfRun 9
      rw [ih, h9]
      exact selfStep_inactive rfl
  refine ⟨by rw [h9], by rw [h9]; decide, ?_⟩
  intro n hn
  have hsplit : n = 9 + (n - 9) := by omega
  rw [hsplit, hstat]

theorem c6_witness : 9 ≤ 10 ∧ selfRun 10 = selfRun 9 :=
  ⟨by decide, c6_selfplay_draw.2.2 10 (by decide)⟩

/-- C7: the state-threaded minimax returns the board exactly as it received
it — every exploratory mark is restored on the way out — and its score is
the score of the pure recursion, so sibling branches and the caller are
unaffected by the in-place mutation. -/
theorem c7_minimax_restores : ∀ (size fuel : Nat) (arr : Board) (depth : Nat)
    (isMax : Bool),
    (minimaxSt size fuel arr depth isMax).2 = arr ∧
    (minimaxSt size fuel arr depth isMax).1 = minimax size fuel arr depth isMax :=
  fun _ fuel arr depth isMax => minimaxSt_spec fuel arr depth isMax

/-- C8: for every difficulty, the selector returns `none` exactly on a full
board, and any returned index lies in `[0, size²)` and names an empty cell
(for a board of the right length). -/
theorem c8_selectMove_range : ∀ (fuel size : Nat) (b : Board) (diff : Difficulty)
    (rand : Nat), b.length = size * size →
    ((selectMove fuel size b diff rand = none ↔ isFull b = true) ∧
      ∀ i, selectMove fuel size b diff rand = some i →
        i < size * size ∧ b.get? i = some none) := by
  intro fuel size b diff rand hlen
  cases diff with
  | easy =>
    refine ⟨getRandomMove_none, ?_⟩
    intro i h
    have h2 := getRandomMove_mem (show getRandomMove b rand = some i from h)
    exact ⟨hlen ▸ h2.1, h2.2⟩
  | medium =>
    refine ⟨getMediumMove_none, ?_⟩
    intro i h
    have h2 := getMediumMove_mem (show getMediumMove size b rand = some i from h)
    exact ⟨hlen ▸ h2.1, h2.2⟩
  | hard =>
    constructor
    · constructor
      · intro h
        rw [isFull_iff_no_null]
        exact getBestMove_none.mp (show getBestMove fuel size b = none from h)
      · intro h
        show getBestMove fuel size b = none
        exact getBestMove_none.mpr (isFull_iff_no_null.mp h)
    · intro i h
      obtain ⟨h1, h2, _⟩ :=
        getBestMove_some (show getBestMove fuel size b = some i from h)
      exact ⟨hlen ▸ h1, jsIsNull_eq_some h2⟩

theorem c8_witness :
    (([none] : Board).length = 1 * 1) ∧
    ((selectMove 1 1 ([none] : Board) Difficulty.easy 0 = none ↔
        isFull ([none] : Board) = true) ∧
      ∀ i, selectMove 1 1 ([none] : Board) Difficulty.easy 0 = some i →
        i < 1 * 1 ∧ ([none] : Board).get? i = some none) :=
  ⟨by decide, c8_selectMove_range 1 1 [none] Difficulty.easy 0 (by decide)⟩

/-- C9: on every state reachable from the fresh board through the click
handler alone, `X` and `O` never simultaneously both have a complete line,
so the winner check names at most one winner on reachable boards. -/
theorem c9_no_double_winner : ∀ (size : Nat) (s : GameSt), Reach size s →
    ¬(checkWinner s.board size X = true ∧ checkWinner s.board size O = true) :=
  fun _ _ h => (reach_inv h).2.2

theorem c9_witness :
    ¬(checkWinner (GameSt.board ⟨List.replicate (3 * 3) none, X, true⟩) 3 X
        = true ∧
      checkWinner (GameSt.board ⟨List.replicate (3 * 3) none, X, true⟩) 3 O
        = true) :=
  c9_no_double_winner 3 ⟨List.replicate (3 * 3) none, X, true⟩ Reach.init

/-- C10: for a positive side length, the draw check holds exactly when every
cell is occupied and neither player has a complete line (rows, columns, or
either diagonal); and the full 3×3 board `[X,O,X,O,X,O,O,X,O]` is a draw. -/
theorem c10_isDraw_characterisation :
    (∀ (arr : Board) (size : Nat), 1 ≤ size →
      (isDraw arr size = true ↔
        (∀ c ∈ arr, c.isSome = true) ∧
        ¬((∃ r, r < size ∧ ∀ i, i < size → jsGet arr (r * size + i * 1) = some X) ∨
          (∃ c, c < size ∧ ∀ i, i < size → jsGet arr (c + i * size) = some X) ∨
          (∀ i, i < size → jsGet arr (0 + i * (size + 1)) = some X) ∨
          (∀ i, i < size → jsGet arr ((size - 1) + i * (size - 1)) = some X)) ∧
        ¬((∃ r, r < size ∧ ∀ i, i < size → jsGet arr (r * size + i * 1) = some O) ∨
          (∃ c, c < size ∧ ∀ i, i < size → jsGet arr (c + i * size) = some O) ∨
          (∀ i, i < size → jsGet arr (0 + i * (size + 1)) = some O) ∨
          (∀ i, i < size → jsGet arr ((size - 1) + i * (size - 1)) = some O)))) ∧
    isDraw ([some X, some O, some X, some O, some X, some O, some O, some X, some O])
      3 = true := by
  constructor
  · intro arr size hsize
    unfold isDraw
    rw [Bool.and_eq_true, Bool.and_eq_true]
    rw [Bool.not_eq_true', Bool.not_eq_true']
    rw [Bool.eq_false_iff, Bool.eq_false_iff]
    simp only [ne_eq]
    rw [checkWinner_iff hsize, checkWinner_iff hsize]
    unfold isFull
    rw [List.all_eq_true]
    exact and_assoc
  · decide

theorem c10_witness :
    1 ≤ 3 ∧
    (isDraw ([some X, some O, some X, some O, some X, some O, some O, some X,
        some O]) 3 = true ↔
      (∀ c ∈ ([some X, some O, some X, some O, some X, some O, some O, some X,
        some O] : Board), c.isSome = true) ∧
      ¬((∃ r, r < 3 ∧ ∀ i, i < 3 →
          jsGet ([some X, some O, some X, some O, some X, some O, some O, some X,
            some O]) (r * 3 + i * 1) = some X) ∨
        (∃ c, c < 3 ∧ ∀ i, i < 3 →
          jsGet ([some X, some O, some X, some O, some X, some O, some O, some X,
            some O]) (c + i * 3) = some X) ∨
        (∀ i, i < 3 →
          jsGet ([some X, some O, some X, some O, some X, some O, some O, some X,
            some O]) (0 + i * (3 + 1)) = some X) ∨
        (∀ i, i < 3 →
          jsGet ([some X, some O, some X, some O, some X, some O, some O, some X,
            some O]) ((3 - 1) + i * (3 - 1)) = some X)) ∧
      ¬((∃ r, r < 3 ∧ ∀ i, i < 3 →
          jsGet ([some X, some O, some X, some O, some X, some O, some O, some X,
            some O]) (r * 3 + i * 1) = some O) ∨
        (∃ c, c < 3 ∧ ∀ i, i < 3 →
          jsGet ([some X, some O, some X, some O, some X, some O, some O, some X,
            some O]) (c + i * 3) = some O) ∨
        (∀ i, i < 3 →
          jsGet ([some X, some O, some X, some O, some X, some O, some O, some X,
            some O]) (0 + i * (3 + 1)) = some O) ∨
        (∀ i, i < 3 →
          jsGet ([some X, some O, some X, some O, some X, some O, some O, some X,
            some O]) ((3 - 1) + i * (3 - 1)) = some O))) :=
  ⟨by decide,
    c10_isDraw_characterisation.1
      [some X, some O, some X, some O, some X, some O, some O, some X, some O] 3
      (by decide)⟩

end TTT
